import Mathlib

/-!
# FIDO/U2F exchange engine and crypto helpers of the proxmark3 client

Shallow embedding of `client/cmdhffido.c` and `common/polarssl/libpcrypto.c`.

* Bytes, status words and lengths are natural numbers.  A value stored into a
  `uint16_t` object is reduced modulo `2 ^ 16`, a value stored into a `size_t`
  object modulo `2 ^ 64`; `size_t` arithmetic wraps.
* The response buffer is the memory seen from the `Result` pointer: a function
  from byte offsets to bytes.
* `EMVExchange`, `EMVSelect` and the reader helpers live outside these two
  files.  They are fields of a `Reader`, a state machine over an arbitrary
  state type `σ`; nothing is assumed about them.
* The `while` loop of `FIDOExchange` need not terminate, so the loop takes
  fuel and returns `none` when it runs out.
* The AES functions of mbedtls called by `aes_encode` and `aes_decode` are not
  in these two files either.  They are modelled after FIPS-197 and CBC mode;
  these definitions are marked `Modelled from the spec:`.  The CMAC function
  of mbedtls is a parameter of `aes_cmac`.
-/

namespace Fido

/-! ## Data model -/

/-- Modulus of `size_t` arithmetic, `2 ^ 64`. -/
def SIZE_MOD : Nat := 18446744073709551616

/-- Subtraction `a - b` of two `size_t` values. -/
def size_sub (a b : Nat) : Nat := (a % SIZE_MOD + SIZE_MOD - b % SIZE_MOD) % SIZE_MOD

/-- Addition `a + b` of two `size_t` values. -/
def size_add (a b : Nat) : Nat := (a + b) % SIZE_MOD

/-- The command unit `sAPDU` of `emv/emvcore.h`: five header bytes and a data
pointer (`none` is `NULL`). -/
structure sAPDU where
  CLA : Nat
  INS : Nat
  P1 : Nat
  P2 : Nat
  Lc : Nat
  data : Option (List Nat)
deriving DecidableEq, Repr

/-- What one call of `EMVExchange` or `EMVSelect` leaves behind: its return
code, the bytes it stored from the `Result` pointer on, and the values it
stored into `*ResultLen` and `*sw`. -/
structure ExchangeReply where
  res : Int
  Result : List Nat
  ResultLen : Nat
  sw : Nat
deriving DecidableEq, Repr

/-- One card exchange as issued by this file, with the arguments passed. -/
inductive Request where
  | select (ActivateField LeaveFieldON : Bool) (AID : List Nat) (MaxResultLen : Nat)
  | exchange (LeaveFieldON : Bool) (apdu : sAPDU) (MaxResultLen : Nat)
deriving DecidableEq, Repr

/-- One `PrintAndLog` call: the format string and the numeric or byte
arguments. -/
structure Line where
  fmt : String
  args : List Int
deriving DecidableEq, Repr

/-- The collaborators that are called but not defined in `cmdhffido.c`, as
transitions of an external state `σ` (card, field, reader). -/
structure Reader (σ : Type) where
  EMVSelect : σ → Bool → Bool → List Nat → Nat → ExchangeReply × σ
  EMVExchange : σ → Bool → sAPDU → Nat → ExchangeReply × σ
  CmdHF14AInfo : σ → σ
  SetAPDULogging : Bool → σ → σ
  DropField : σ → σ

/-- External state together with the record of what the program did to it: the
exchanges issued, in order, and the lines printed. -/
structure World (σ : Type) where
  card : σ
  exchanges : List Request
  printed : List Line

/-- The variables an exchange function hands back: return code, response
buffer, `*ResultLen`, `*sw`, and the world. -/
structure Out (σ : Type) where
  res : Int
  Result : Nat → Nat
  ResultLen : Nat
  sw : Nat
  world : World σ

/-- Zero-initialised buffer. -/
def zeroBuf : Nat → Nat := fun _ => 0

/-- Memory after storing `bytes` from offset `off` on. -/
def store (mem : Nat → Nat) (off : Nat) (bytes : List Nat) : Nat → Nat :=
  fun i => if off ≤ i ∧ i < off + bytes.length then bytes.getD (i - off) 0 else mem i

/-- The bytes `mem[0 .. n)`. -/
def readBytes (mem : Nat → Nat) (n : Nat) : List Nat :=
  (List.range n).map mem

/-- The bytes `mem[off .. off + n)`. -/
def slice (mem : Nat → Nat) (off n : Nat) : List Nat :=
  (List.range n).map (fun i => mem (off + i))

/-- Memory holding a C string literal: its characters, then the terminator. -/
def cstr (chars : List Nat) : Nat → Nat :=
  fun i => chars.getD i 0

/-- The libc function `strncmp`: compares at most `n` characters as unsigned
bytes and stops after a common terminator. -/
def strncmp (s1 s2 : Nat → Nat) : Nat → Int
  | 0 => 0
  | n + 1 =>
    if s1 0 ≠ s2 0 then (s1 0 : Int) - (s2 0 : Int)
    else if s1 0 = 0 then 0
    else strncmp (fun i => s1 (i + 1)) (fun i => s2 (i + 1)) n

/-- The characters printed by `%.*s` for precision `n` and string `mem`. -/
def precisionString (mem : Nat → Nat) (n : Nat) : List Nat :=
  (readBytes mem n).takeWhile (fun c => c ≠ 0)

/-- The call `PrintAndLog(fmt, args...)`: one more printed line. -/
def PrintAndLog {σ : Type} (w : World σ) (fmt : String) (args : List Int) : World σ :=
  { w with printed := w.printed ++ [{ fmt := fmt, args := args }] }

/-! ## cmdhffido.c -/

/-- The call `EMVExchange(LeaveFieldON, apdu, &Result[off], MaxResultLen, ResultLen, sw, NULL)`:
the reply's bytes land at offset `off`, `*ResultLen` and `*sw` are overwritten. -/
def callEMVExchange {σ : Type} (rd : Reader σ) (w : World σ) (LeaveFieldON : Bool)
    (apdu : sAPDU) (Result : Nat → Nat) (off : Nat) (MaxResultLen : Nat) : Out σ :=
  let r := rd.EMVExchange w.card LeaveFieldON apdu MaxResultLen
  { res := r.1.res
    Result := store Result off r.1.Result
    ResultLen := r.1.ResultLen % SIZE_MOD
    sw := r.1.sw % 65536
    world := { w with card := r.2
                      exchanges := w.exchanges ++ [Request.exchange LeaveFieldON apdu MaxResultLen] } }

/-- The call `EMVSelect(ActivateField, LeaveFieldON, AID, sizeof AID, Result, MaxResultLen, ResultLen, sw, NULL)`. -/
def callEMVSelect {σ : Type} (rd : Reader σ) (w : World σ) (ActivateField LeaveFieldON : Bool)
    (AID : List Nat) (Result : Nat → Nat) (MaxResultLen : Nat) : Out σ :=
  let r := rd.EMVSelect w.card ActivateField LeaveFieldON AID MaxResultLen
  { res := r.1.res
    Result := store Result 0 r.1.Result
    ResultLen := r.1.ResultLen % SIZE_MOD
    sw := r.1.sw % 65536
    world := { w with card := r.2
                      exchanges := w.exchanges ++ [Request.select ActivateField LeaveFieldON AID MaxResultLen] } }

/-- The application identifier `data[]` of `FIDOSelect`. -/
def FIDO_AID : List Nat := [0xA0, 0x00, 0x00, 0x06, 0x47, 0x2F, 0x00, 0x01]

/-- The function `FIDOSelect`. -/
def FIDOSelect {σ : Type} (rd : Reader σ) (w : World σ) (ActivateField LeaveFieldON : Bool)
    (Result : Nat → Nat) (MaxResultLen : Nat) : Out σ :=
  callEMVSelect rd w ActivateField LeaveFieldON FIDO_AID Result MaxResultLen

/-- The continuation command `(sAPDU){0x00, 0xC0, 0x00, 0x00, 0x00, NULL}`. -/
def GET_RESPONSE : sAPDU :=
  { CLA := 0x00, INS := 0xC0, P1 := 0x00, P2 := 0x00, Lc := 0x00, data := none }

/-- Result of one pass through the `while` of `FIDOExchange`: the function
returned, or control is back at the loop condition. -/
inductive Step (σ : Type) where
  | done (o : Out σ)
  | again (st : Out σ)

/-- One evaluation of the loop condition of `FIDOExchange` followed, when it
holds, by the loop body (lines 51 to 60). -/
def FIDOExchange_iter {σ : Type} (rd : Reader σ) (MaxResultLen : Nat) (st : Out σ) : Step σ :=
  if st.res = 0 ∧ st.sw / 256 = 0x61 then
    let oldlen := st.ResultLen
    let st1 := callEMVExchange rd st.world true GET_RESPONSE st.Result oldlen
      (size_sub MaxResultLen oldlen)
    let res := if st1.res = 5 then 0 else st1.res
    let len := size_add st1.ResultLen oldlen
    if len > MaxResultLen then
      Step.done { st1 with res := 100, ResultLen := len }
    else
      Step.again { st1 with res := res, ResultLen := len }
  else
    Step.done st

/-- The `while` loop of `FIDOExchange` and the final `return res`; `none` when
the loop is still running after `fuel` evaluations of its condition. -/
def FIDOExchange_loop {σ : Type} (rd : Reader σ) (MaxResultLen : Nat) :
    Nat → Out σ → Option (Out σ)
  | 0, _ => none
  | fuel + 1, st =>
    match FIDOExchange_iter rd MaxResultLen st with
    | Step.done o => some o
    | Step.again st1 => FIDOExchange_loop rd MaxResultLen fuel st1

/-- The variables of `FIDOExchange` when the loop condition is first
evaluated: after the initial exchange and the `res == 5` adjustment. -/
def FIDOExchange_init {σ : Type} (rd : Reader σ) (w : World σ) (apdu : sAPDU)
    (Result : Nat → Nat) (MaxResultLen : Nat) : Out σ :=
  let st := callEMVExchange rd w true apdu Result 0 MaxResultLen
  { st with res := if st.res = 5 then 0 else st.res }

/-- The function `FIDOExchange`: the initial exchange, then the chaining loop. -/
def FIDOExchange {σ : Type} (rd : Reader σ) (w : World σ) (apdu : sAPDU)
    (Result : Nat → Nat) (MaxResultLen : Nat) (fuel : Nat) : Option (Out σ) :=
  FIDOExchange_loop rd MaxResultLen fuel (FIDOExchange_init rd w apdu Result MaxResultLen)

/-- The function `FIDORegister`: the command `(sAPDU){0x00, 0x01, 0x03, 0x00, 64, params}`. -/
def FIDORegister {σ : Type} (rd : Reader σ) (w : World σ) (params : List Nat)
    (Result : Nat → Nat) (MaxResultLen : Nat) (fuel : Nat) : Option (Out σ) :=
  FIDOExchange rd w { CLA := 0x00, INS := 0x01, P1 := 0x03, P2 := 0x00, Lc := 64, data := some params }
    Result MaxResultLen fuel

/-- The loop variables after `k` completed passes that came back to the loop
condition; `none` if the function returned before. -/
def loopHead {σ : Type} (rd : Reader σ) (MaxResultLen : Nat) : Nat → Out σ → Option (Out σ)
  | 0, st => some st
  | k + 1, st =>
    match FIDOExchange_iter rd MaxResultLen st with
    | Step.done _ => none
    | Step.again st1 => loopHead rd MaxResultLen k st1

/-- The characters of the literal `"U2F_V2"`. -/
def U2F_V2 : List Nat := [0x55, 0x32, 0x46, 0x5F, 0x56, 0x32]

/-- The call `dump_buffer(buf, len, NULL, 0)` of `emv/dump.c`, recorded as one printed
line carrying the dumped bytes. -/
def dump_buffer {σ : Type} (w : World σ) (buf : Nat → Nat) (len : Nat) : World σ :=
  PrintAndLog w "dump_buffer" ((readBytes buf len).map Int.ofNat)

/-- The function `CmdHFFidoInfo`; `APDU_RES_LEN` is the size of `buf`, a constant of
`emv/emvcore.h`.  Returns the result code and the world. -/
def CmdHFFidoInfo {σ : Type} (rd : Reader σ) (APDU_RES_LEN : Nat) (w : World σ)
    (cmd : Option String) : Int × World σ :=
  let w1 := match cmd with
    | some c => if c.length > 0 then
        PrintAndLog w "WARNING: command don't have any parameters.\n" [] else w
    | none => w
  let w2 := { w1 with card := rd.CmdHF14AInfo w1.card }
  let w3 := PrintAndLog w2 "--------------------------------------------" []
  let w4 := { w3 with card := rd.SetAPDULogging false w3.card }
  let o := FIDOSelect rd w4 true false zeroBuf APDU_RES_LEN
  if o.res ≠ 0 then
    (o.res, o.world)
  else if o.sw ≠ 0x9000 then
    if o.sw ≠ 0 then
      (0, PrintAndLog o.world "Not a FIDO card! APDU response: %04x - %s" [o.sw])
    else
      (0, PrintAndLog o.world "APDU exchange error. Card returns 0x0000." [])
  else if strncmp o.Result (cstr U2F_V2) 7 = 0 then
    let w5 := PrintAndLog o.world "FIDO authenricator detected." []
    let w6 := PrintAndLog w5 "WARNING: strange version:" []
    (0, dump_buffer w6 o.Result o.ResultLen)
  else
    let w5 := PrintAndLog o.world "FIDO authenricator detected. Version: %.*s"
      ((precisionString o.Result o.ResultLen).map Int.ofNat)
    (0, { w5 with card := rd.DropField w5.card })

/-- The function `CmdHFFidoRegister` (its argument `cmd` is not used).  Returns
the result code and the world, `none` when
the chaining loop of the register exchange is still running after `fuel`
evaluations of its condition. -/
def CmdHFFidoRegister {σ : Type} (rd : Reader σ) (w : World σ) (fuel : Nat) :
    Option (Int × World σ) :=
  let data := List.replicate 64 0
  let w1 := { w with card := rd.SetAPDULogging true w.card }
  let o := FIDOSelect rd w1 true true zeroBuf 2048
  if o.res ≠ 0 then
    some (o.res, PrintAndLog o.world "Can't select authenticator. res=%x. Exit..." [o.res])
  else if o.sw ≠ 0x9000 then
    some (2, PrintAndLog o.world
      "Can't select FIDO application. APDU response status: %04x - %s" [o.sw])
  else
    match FIDORegister rd o.world data o.Result 2048 fuel with
    | none => none
    | some o2 =>
      if o2.res ≠ 0 then
        some (o2.res, PrintAndLog o2.world
          "Can't execute register command. res=%x. Exit..." [o2.res])
      else if o2.sw ≠ 0x9000 then
        some (3, PrintAndLog o2.world
          "Can't execute register command. APDU response status: %04x - %s" [o2.sw])
      else
        let w2 := PrintAndLog o2.world
          "---------------------------------------------------------------" []
        let w3 := PrintAndLog w2 "data len: %d" [o2.ResultLen]
        let buf := o2.Result
        if buf 0 ≠ 0x05 then
          some (5, PrintAndLog w3 "ERROR: First byte must be 0x05, but it %2x" [buf 0])
        else
          let w4 := PrintAndLog w3 "User public key: %s" ((slice buf 1 65).map Int.ofNat)
          let keyHandleLen := buf 66 % 256
          let w5 := PrintAndLog w4 "Key handle[%d]: %s"
            ((keyHandleLen : Int) :: (slice buf 67 keyHandleLen).map Int.ofNat)
          let w6 := PrintAndLog w5 "DER certificate[%d]: %s"
            ((keyHandleLen : Int) :: (slice buf (67 + keyHandleLen) 20).map Int.ofNat)
          some (0, w6)

/-! ## Simulated cards -/

/-- A scripted card: the state is the list of replies still to give. -/
def scriptNext : List ExchangeReply → ExchangeReply × List ExchangeReply
  | [] => ({ res := 1, Result := [], ResultLen := 0, sw := 0 }, [])
  | r :: rs => (r, rs)

/-- Reader in front of a scripted card: every exchange consumes one reply. -/
def scriptReader : Reader (List ExchangeReply) :=
  { EMVSelect := fun s _ _ _ _ => scriptNext s
    EMVExchange := fun s _ _ _ => scriptNext s
    CmdHF14AInfo := fun s => s
    SetAPDULogging := fun _ s => s
    DropField := fun s => s }

/-- A fresh world around card state `s`. -/
def freshWorld {σ : Type} (s : σ) : World σ :=
  { card := s, exchanges := [], printed := [] }

/-- The card, in state `s` with `off` bytes accumulated, answers the successive
GET RESPONSE exchanges of the chaining loop (each issued with the remaining
capacity) with the replies `rs`, in order. -/
def chainReplies {σ : Type} (rd : Reader σ) (MaxResultLen : Nat) :
    σ → Nat → List ExchangeReply → Prop
  | _, _, [] => True
  | s, off, r :: rs =>
    (rd.EMVExchange s true GET_RESPONSE (size_sub MaxResultLen off)).1 = r ∧
    chainReplies rd MaxResultLen
      (rd.EMVExchange s true GET_RESPONSE (size_sub MaxResultLen off)).2 (off + r.ResultLen) rs

/-- The part a reply delivers: the first `ResultLen` bytes it stored. -/
def part (r : ExchangeReply) : List Nat := r.Result.take r.ResultLen

/-- A card that answers every exchange with status `0x6100` and no data. -/
def stuckReader : Reader Unit :=
  { EMVSelect := fun s _ _ _ _ => ({ res := 0, Result := [], ResultLen := 0, sw := 0x6100 }, s)
    EMVExchange := fun s _ _ _ => ({ res := 0, Result := [], ResultLen := 0, sw := 0x6100 }, s)
    CmdHF14AInfo := fun s => s
    SetAPDULogging := fun _ s => s
    DropField := fun s => s }

/-- A card that answers every exchange with one more byte and status `0x6101`. -/
def chattyReader : Reader Unit :=
  { EMVSelect := fun s _ _ _ _ => ({ res := 5, Result := [0xAA], ResultLen := 1, sw := 0x6101 }, s)
    EMVExchange := fun s _ _ _ => ({ res := 5, Result := [0xAA], ResultLen := 1, sw := 0x6101 }, s)
    CmdHF14AInfo := fun s => s
    SetAPDULogging := fun _ s => s
    DropField := fun s => s }

/-- The variables after a pass through the loop, whichever way it ended. -/
def Step.out {σ : Type} : Step σ → Out σ
  | Step.done o => o
  | Step.again st => st

/-- The register command unit with an all-zero payload. -/
def registerAPDU : sAPDU :=
  { CLA := 0x00, INS := 0x01, P1 := 0x03, P2 := 0x00, Lc := 64, data := some (List.replicate 64 0) }

/-- A three-part response; the reader leaves the two status bytes after each part. -/
def threeParts : List ExchangeReply :=
  [ { res := 5, Result := [1, 2, 3, 0x61, 0x02], ResultLen := 3, sw := 0x6102 },
    { res := 5, Result := [4, 5, 0x61, 0x01], ResultLen := 2, sw := 0x6101 },
    { res := 0, Result := [6, 0x90, 0x00], ResultLen := 1, sw := 0x9000 } ]

/-- Eight bytes, then five more announced with `0x6103`, then a final part. -/
def overfullScript : List ExchangeReply :=
  [ { res := 5, Result := [1, 2, 3, 4, 5, 6, 7, 8], ResultLen := 8, sw := 0x6105 },
    { res := 5, Result := [9, 10, 11, 12, 13], ResultLen := 5, sw := 0x6103 },
    { res := 0, Result := [14, 15, 16], ResultLen := 3, sw := 0x9000 } ]

/-- Four bytes, four more that fill the buffer exactly, two more that overflow
it, and a final part that is never requested. -/
def lateOverflowScript : List ExchangeReply :=
  [ { res := 5, Result := [1, 2, 3, 4], ResultLen := 4, sw := 0x6104 },
    { res := 5, Result := [5, 6, 7, 8], ResultLen := 4, sw := 0x6102 },
    { res := 5, Result := [9, 10], ResultLen := 2, sw := 0x6101 },
    { res := 0, Result := [11], ResultLen := 1, sw := 0x9000 } ]

/-- The loop variables of the `lateOverflowScript` run after the first
continuation. -/
def lateOverflowHead : Out (List ExchangeReply) :=
  (FIDOExchange_iter scriptReader 8
    (FIDOExchange_init scriptReader (freshWorld lateOverflowScript) registerAPDU zeroBuf 8)).out

/-- Four bytes, then a continuation that fails with code 2 reporting ten bytes. -/
def failingScript : List ExchangeReply :=
  [ { res := 5, Result := [1, 2, 3, 4], ResultLen := 4, sw := 0x6104 },
    { res := 2, Result := [], ResultLen := 10, sw := 0 } ]

/-- Four bytes, then a continuation that fails with code 1. -/
def brokenLinkScript : List ExchangeReply :=
  [ { res := 5, Result := [1, 2, 3, 4], ResultLen := 4, sw := 0x6104 },
    { res := 1, Result := [], ResultLen := 0, sw := 0 } ]

/-- A status word `0x6100` after a first part, then the rest. -/
def zeroHintScript : List ExchangeReply :=
  [ { res := 5, Result := [1, 2], ResultLen := 2, sw := 0x6100 },
    { res := 5, Result := [3], ResultLen := 1, sw := 0x6A80 } ]

/-- The loop variables of the `zeroHintScript` run after the initial exchange. -/
def zeroHintInit : Out (List ExchangeReply) :=
  FIDOExchange_init scriptReader (freshWorld zeroHintScript) registerAPDU zeroBuf 8

/-- The loop variables of the `zeroHintScript` run after the first continuation. -/
def zeroHintNext : Out (List ExchangeReply) :=
  (FIDOExchange_iter scriptReader 8 zeroHintInit).out

/-- SELECT succeeds, then the register command is refused with `0x6A80`. -/
def refusedScript : List ExchangeReply :=
  [ { res := 0, Result := [], ResultLen := 0, sw := 0x9000 },
    { res := 5, Result := [0x01], ResultLen := 1, sw := 0x6A80 } ]

/-- SELECT succeeds, then the register command answers `0x9000` with a
response that starts with `0x04`. -/
def badTagScript : List ExchangeReply :=
  [ { res := 0, Result := [], ResultLen := 0, sw := 0x9000 },
    { res := 0, Result := [0x04, 0x01, 0x02], ResultLen := 3, sw := 0x9000 } ]

/-- The SELECT reply of the end-to-end scenario: six bytes `U2F_V2`, `0x9000`. -/
def u2fReply : ExchangeReply :=
  { res := 0, Result := U2F_V2, ResultLen := 6, sw := 0x9000 }

end Fido

namespace Libpcrypto

/-! ## AES-128 block cipher (FIPS-197), CBC mode, as used through mbedtls -/

/-- Modelled from the spec: multiplication by `x` in GF(2^8) modulo
`x^8 + x^4 + x^3 + x + 1` (FIPS-197 `xtime`), part of the AES of mbedtls,
which is not in the two source files. -/
def xtime (a : Nat) : Nat :=
  if 2 * (a % 256) < 256 then 2 * (a % 256) else (2 * (a % 256) - 256) ^^^ 0x1B

/-- Modelled from the spec: `v` if bit `i` of `b` is set, else `0`; one term
of a GF(2^8) product. -/
def pick (b i v : Nat) : Nat := if b.testBit i then v else 0

/-- Modelled from the spec: the GF(2^8) product `a · b` of AES, by shift and
add over the bits of `b`. -/
def gmul (a b : Nat) : Nat :=
  pick b 0 (a % 256) ^^^ pick b 1 (xtime a) ^^^ pick b 2 (xtime (xtime a)) ^^^
  pick b 3 (xtime (xtime (xtime a))) ^^^ pick b 4 (xtime (xtime (xtime (xtime a)))) ^^^
  pick b 5 (xtime (xtime (xtime (xtime (xtime a))))) ^^^
  pick b 6 (xtime (xtime (xtime (xtime (xtime (xtime a)))))) ^^^
  pick b 7 (xtime (xtime (xtime (xtime (xtime (xtime (xtime a)))))))

/-- Modelled from the spec: the AES forward S-box (the table `FSb` of
mbedtls `aes.c`, FIPS-197 figure 7). -/
def FSb : List Nat := [
    0x63, 0x7C, 0x77, 0x7B, 0xF2, 0x6B, 0x6F, 0xC5, 0x30, 0x01, 0x67, 0x2B, 0xFE, 0xD7, 0xAB, 0x76,
    0xCA, 0x82, 0xC9, 0x7D, 0xFA, 0x59, 0x47, 0xF0, 0xAD, 0xD4, 0xA2, 0xAF, 0x9C, 0xA4, 0x72, 0xC0,
    0xB7, 0xFD, 0x93, 0x26, 0x36, 0x3F, 0xF7, 0xCC, 0x34, 0xA5, 0xE5, 0xF1, 0x71, 0xD8, 0x31, 0x15,
    0x04, 0xC7, 0x23, 0xC3, 0x18, 0x96, 0x05, 0x9A, 0x07, 0x12, 0x80, 0xE2, 0xEB, 0x27, 0xB2, 0x75,
    0x09, 0x83, 0x2C, 0x1A, 0x1B, 0x6E, 0x5A, 0xA0, 0x52, 0x3B, 0xD6, 0xB3, 0x29, 0xE3, 0x2F, 0x84,
    0x53, 0xD1, 0x00, 0xED, 0x20, 0xFC, 0xB1, 0x5B, 0x6A, 0xCB, 0xBE, 0x39, 0x4A, 0x4C, 0x58, 0xCF,
    0xD0, 0xEF, 0xAA, 0xFB, 0x43, 0x4D, 0x33, 0x85, 0x45, 0xF9, 0x02, 0x7F, 0x50, 0x3C, 0x9F, 0xA8,
    0x51, 0xA3, 0x40, 0x8F, 0x92, 0x9D, 0x38, 0xF5, 0xBC, 0xB6, 0xDA, 0x21, 0x10, 0xFF, 0xF3, 0xD2,
    0xCD, 0x0C, 0x13, 0xEC, 0x5F, 0x97, 0x44, 0x17, 0xC4, 0xA7, 0x7E, 0x3D, 0x64, 0x5D, 0x19, 0x73,
    0x60, 0x81, 0x4F, 0xDC, 0x22, 0x2A, 0x90, 0x88, 0x46, 0xEE, 0xB8, 0x14, 0xDE, 0x5E, 0x0B, 0xDB,
    0xE0, 0x32, 0x3A, 0x0A, 0x49, 0x06, 0x24, 0x5C, 0xC2, 0xD3, 0xAC, 0x62, 0x91, 0x95, 0xE4, 0x79,
    0xE7, 0xC8, 0x37, 0x6D, 0x8D, 0xD5, 0x4E, 0xA9, 0x6C, 0x56, 0xF4, 0xEA, 0x65, 0x7A, 0xAE, 0x08,
    0xBA, 0x78, 0x25, 0x2E, 0x1C, 0xA6, 0xB4, 0xC6, 0xE8, 0xDD, 0x74, 0x1F, 0x4B, 0xBD, 0x8B, 0x8A,
    0x70, 0x3E, 0xB5, 0x66, 0x48, 0x03, 0xF6, 0x0E, 0x61, 0x35, 0x57, 0xB9, 0x86, 0xC1, 0x1D, 0x9E,
    0xE1, 0xF8, 0x98, 0x11, 0x69, 0xD9, 0x8E, 0x94, 0x9B, 0x1E, 0x87, 0xE9, 0xCE, 0x55, 0x28, 0xDF,
    0x8C, 0xA1, 0x89, 0x0D, 0xBF, 0xE6, 0x42, 0x68, 0x41, 0x99, 0x2D, 0x0F, 0xB0, 0x54, 0xBB, 0x16
  ]

/-- Modelled from the spec: the AES inverse S-box (the table `RSb` of mbedtls
`aes.c`, FIPS-197 figure 14). -/
def RSb : List Nat := [
    0x52, 0x09, 0x6A, 0xD5, 0x30, 0x36, 0xA5, 0x38, 0xBF, 0x40, 0xA3, 0x9E, 0x81, 0xF3, 0xD7, 0xFB,
    0x7C, 0xE3, 0x39, 0x82, 0x9B, 0x2F, 0xFF, 0x87, 0x34, 0x8E, 0x43, 0x44, 0xC4, 0xDE, 0xE9, 0xCB,
    0x54, 0x7B, 0x94, 0x32, 0xA6, 0xC2, 0x23, 0x3D, 0xEE, 0x4C, 0x95, 0x0B, 0x42, 0xFA, 0xC3, 0x4E,
    0x08, 0x2E, 0xA1, 0x66, 0x28, 0xD9, 0x24, 0xB2, 0x76, 0x5B, 0xA2, 0x49, 0x6D, 0x8B, 0xD1, 0x25,
    0x72, 0xF8, 0xF6, 0x64, 0x86, 0x68, 0x98, 0x16, 0xD4, 0xA4, 0x5C, 0xCC, 0x5D, 0x65, 0xB6, 0x92,
    0x6C, 0x70, 0x48, 0x50, 0xFD, 0xED, 0xB9, 0xDA, 0x5E, 0x15, 0x46, 0x57, 0xA7, 0x8D, 0x9D, 0x84,
    0x90, 0xD8, 0xAB, 0x00, 0x8C, 0xBC, 0xD3, 0x0A, 0xF7, 0xE4, 0x58, 0x05, 0xB8, 0xB3, 0x45, 0x06,
    0xD0, 0x2C, 0x1E, 0x8F, 0xCA, 0x3F, 0x0F, 0x02, 0xC1, 0xAF, 0xBD, 0x03, 0x01, 0x13, 0x8A, 0x6B,
    0x3A, 0x91, 0x11, 0x41, 0x4F, 0x67, 0xDC, 0xEA, 0x97, 0xF2, 0xCF, 0xCE, 0xF0, 0xB4, 0xE6, 0x73,
    0x96, 0xAC, 0x74, 0x22, 0xE7, 0xAD, 0x35, 0x85, 0xE2, 0xF9, 0x37, 0xE8, 0x1C, 0x75, 0xDF, 0x6E,
    0x47, 0xF1, 0x1A, 0x71, 0x1D, 0x29, 0xC5, 0x89, 0x6F, 0xB7, 0x62, 0x0E, 0xAA, 0x18, 0xBE, 0x1B,
    0xFC, 0x56, 0x3E, 0x4B, 0xC6, 0xD2, 0x79, 0x20, 0x9A, 0xDB, 0xC0, 0xFE, 0x78, 0xCD, 0x5A, 0xF4,
    0x1F, 0xDD, 0xA8, 0x33, 0x88, 0x07, 0xC7, 0x31, 0xB1, 0x12, 0x10, 0x59, 0x27, 0x80, 0xEC, 0x5F,
    0x60, 0x51, 0x7F, 0xA9, 0x19, 0xB5, 0x4A, 0x0D, 0x2D, 0xE5, 0x7A, 0x9F, 0x93, 0xC9, 0x9C, 0xEF,
    0xA0, 0xE0, 0x3B, 0x4D, 0xAE, 0x2A, 0xF5, 0xB0, 0xC8, 0xEB, 0xBB, 0x3C, 0x83, 0x53, 0x99, 0x61,
    0x17, 0x2B, 0x04, 0x7E, 0xBA, 0x77, 0xD6, 0x26, 0xE1, 0x69, 0x14, 0x63, 0x55, 0x21, 0x0C, 0x7D
  ]

/-- Modelled from the spec: FIPS-197 `SubBytes` on a 16-byte state. -/
def SubBytes (s : List Nat) : List Nat := s.map (fun b => FSb.getD b 0)

/-- Modelled from the spec: FIPS-197 `InvSubBytes`. -/
def InvSubBytes (s : List Nat) : List Nat := s.map (fun b => RSb.getD b 0)

/-- Modelled from the spec: FIPS-197 `ShiftRows`; the state is stored column
by column, byte `r + 4 c` is row `r` of column `c`. -/
def ShiftRows (s : List Nat) : List Nat :=
  [0, 5, 10, 15, 4, 9, 14, 3, 8, 13, 2, 7, 12, 1, 6, 11].map (fun i => s.getD i 0)

/-- Modelled from the spec: FIPS-197 `InvShiftRows`. -/
def InvShiftRows (s : List Nat) : List Nat :=
  [0, 13, 10, 7, 4, 1, 14, 11, 8, 5, 2, 15, 12, 9, 6, 3].map (fun i => s.getD i 0)

/-- Modelled from the spec: FIPS-197 `MixColumns` on one column. -/
def mixColumn (a0 a1 a2 a3 : Nat) : List Nat :=
  [ gmul 2 a0 ^^^ gmul 3 a1 ^^^ a2 ^^^ a3,
    a0 ^^^ gmul 2 a1 ^^^ gmul 3 a2 ^^^ a3,
    a0 ^^^ a1 ^^^ gmul 2 a2 ^^^ gmul 3 a3,
    gmul 3 a0 ^^^ a1 ^^^ a2 ^^^ gmul 2 a3 ]

/-- Modelled from the spec: FIPS-197 `InvMixColumns` on one column. -/
def invMixColumn (b0 b1 b2 b3 : Nat) : List Nat :=
  [ gmul 14 b0 ^^^ gmul 11 b1 ^^^ gmul 13 b2 ^^^ gmul 9 b3,
    gmul 9 b0 ^^^ gmul 14 b1 ^^^ gmul 11 b2 ^^^ gmul 13 b3,
    gmul 13 b0 ^^^ gmul 9 b1 ^^^ gmul 14 b2 ^^^ gmul 11 b3,
    gmul 11 b0 ^^^ gmul 13 b1 ^^^ gmul 9 b2 ^^^ gmul 14 b3 ]

/-- Modelled from the spec: FIPS-197 `MixColumns`. -/
def MixColumns (s : List Nat) : List Nat :=
  [0, 1, 2, 3].flatMap (fun c =>
    mixColumn (s.getD (4 * c) 0) (s.getD (4 * c + 1) 0) (s.getD (4 * c + 2) 0)
      (s.getD (4 * c + 3) 0))

/-- Modelled from the spec: FIPS-197 `InvMixColumns`. -/
def InvMixColumns (s : List Nat) : List Nat :=
  [0, 1, 2, 3].flatMap (fun c =>
    invMixColumn (s.getD (4 * c) 0) (s.getD (4 * c + 1) 0) (s.getD (4 * c + 2) 0)
      (s.getD (4 * c + 3) 0))

/-- Modelled from the spec: bytewise XOR of two blocks (FIPS-197
`AddRoundKey`, and the chaining XOR of CBC). -/
def xorBlock (a b : List Nat) : List Nat := List.zipWith (fun x y => x ^^^ y) a b

/-- Modelled from the spec: FIPS-197 `AddRoundKey`. -/
def AddRoundKey (s k : List Nat) : List Nat := xorBlock s k

/-- Modelled from the spec: one step of the FIPS-197 key expansion for
`Nk = 4`: the next round key from the previous one and the round constant. -/
def nextRoundKey (k : List Nat) (rcon : Nat) : List Nat :=
  let w0 := xorBlock (k.take 4)
    [FSb.getD (k.getD 13 0) 0 ^^^ rcon, FSb.getD (k.getD 14 0) 0, FSb.getD (k.getD 15 0) 0,
     FSb.getD (k.getD 12 0) 0]
  let w1 := xorBlock ((k.drop 4).take 4) w0
  let w2 := xorBlock ((k.drop 8).take 4) w1
  let w3 := xorBlock ((k.drop 12).take 4) w2
  w0 ++ w1 ++ w2 ++ w3

/-- Modelled from the spec: the round constants of the FIPS-197 key expansion. -/
def RCON : List Nat := [0x01, 0x02, 0x04, 0x08, 0x10, 0x20, 0x40, 0x80, 0x1B, 0x36]

/-- Modelled from the spec: FIPS-197 `KeyExpansion` for a 128-bit key: the
eleven round keys. -/
def KeyExpansion (key : List Nat) : List (List Nat) :=
  List.scanl nextRoundKey (key.take 16) RCON

/-- Modelled from the spec: `mbedtls_aes_context`, the number of rounds and
the round keys. -/
structure mbedtls_aes_context where
  nr : Nat
  rk : List (List Nat)
deriving DecidableEq, Repr

/-- Modelled from the spec: FIPS-197 `Cipher`, encryption of one block. -/
def Cipher (ctx : mbedtls_aes_context) (s : List Nat) : List Nat :=
  let s0 := AddRoundKey s (ctx.rk.getD 0 [])
  let s1 := ((ctx.rk.drop 1).take (ctx.nr - 1)).foldl
    (fun st k => AddRoundKey (MixColumns (ShiftRows (SubBytes st))) k) s0
  AddRoundKey (ShiftRows (SubBytes s1)) (ctx.rk.getD ctx.nr [])

/-- Modelled from the spec: FIPS-197 `InvCipher`, decryption of one block. -/
def InvCipher (ctx : mbedtls_aes_context) (s : List Nat) : List Nat :=
  let s0 := AddRoundKey s (ctx.rk.getD ctx.nr [])
  let s1 := ((ctx.rk.drop 1).take (ctx.nr - 1)).reverse.foldl
    (fun st k => InvMixColumns (AddRoundKey (InvSubBytes (InvShiftRows st)) k)) s0
  AddRoundKey (InvSubBytes (InvShiftRows s1)) (ctx.rk.getD 0 [])

/-- Modelled from the spec: `mbedtls_aes_init`, an empty context. -/
def mbedtls_aes_init : mbedtls_aes_context := { nr := 0, rk := [] }

/-- Modelled from the spec: the mbedtls error code
`MBEDTLS_ERR_AES_INVALID_KEY_LENGTH`. -/
def MBEDTLS_ERR_AES_INVALID_KEY_LENGTH : Int := -0x0020

/-- Modelled from the spec: the mbedtls error code
`MBEDTLS_ERR_AES_INVALID_INPUT_LENGTH`. -/
def MBEDTLS_ERR_AES_INVALID_INPUT_LENGTH : Int := -0x0022

/-- Modelled from the spec: `mbedtls_aes_setkey_enc` for the key size this
file uses (128 bits); any other size is reported as an invalid key length. -/
def mbedtls_aes_setkey_enc (ctx : mbedtls_aes_context) (key : List Nat) (keybits : Nat) :
    Int × mbedtls_aes_context :=
  if keybits = 128 then (0, { nr := 10, rk := KeyExpansion key })
  else (MBEDTLS_ERR_AES_INVALID_KEY_LENGTH, ctx)

/-- Modelled from the spec: `mbedtls_aes_setkey_dec` for 128-bit keys.  The
model keeps the encryption round keys; `InvCipher` uses them in reverse. -/
def mbedtls_aes_setkey_dec (ctx : mbedtls_aes_context) (key : List Nat) (keybits : Nat) :
    Int × mbedtls_aes_context :=
  if keybits = 128 then (0, { nr := 10, rk := KeyExpansion key })
  else (MBEDTLS_ERR_AES_INVALID_KEY_LENGTH, ctx)

/-- Modelled from the spec: the mode argument of `mbedtls_aes_crypt_cbc`. -/
inductive Mode where
  | MBEDTLS_AES_ENCRYPT
  | MBEDTLS_AES_DECRYPT
deriving DecidableEq, Repr

/-- Modelled from the spec: CBC encryption of `n` blocks; returns the updated
chaining value and the ciphertext. -/
def cbcEncrypt (ctx : mbedtls_aes_context) : Nat → List Nat → List Nat → List Nat × List Nat
  | 0, iv, _ => (iv, [])
  | n + 1, iv, input =>
    let c := Cipher ctx (xorBlock (input.take 16) iv)
    let r := cbcEncrypt ctx n c (input.drop 16)
    (r.1, c ++ r.2)

/-- Modelled from the spec: CBC decryption of `n` blocks; returns the updated
chaining value and the plaintext. -/
def cbcDecrypt (ctx : mbedtls_aes_context) : Nat → List Nat → List Nat → List Nat × List Nat
  | 0, iv, _ => (iv, [])
  | n + 1, iv, input =>
    let p := xorBlock (InvCipher ctx (input.take 16)) iv
    let r := cbcDecrypt ctx n (input.take 16) (input.drop 16)
    (r.1, p ++ r.2)

/-- Modelled from the spec: `mbedtls_aes_crypt_cbc(ctx, mode, length, iv, input, output)`.
A length that is not a multiple of 16 is refused; otherwise `length` bytes are
processed block by block, `iv` is updated in place and `output` receives
`length` bytes.  Returns the code, the `iv` buffer and the `output` buffer. -/
def mbedtls_aes_crypt_cbc (ctx : mbedtls_aes_context) (mode : Mode) (length : Nat)
    (iv input output : List Nat) : Int × List Nat × List Nat :=
  if length % 16 ≠ 0 then (MBEDTLS_ERR_AES_INVALID_INPUT_LENGTH, iv, output)
  else
    let r := match mode with
      | Mode.MBEDTLS_AES_ENCRYPT => cbcEncrypt ctx (length / 16) iv input
      | Mode.MBEDTLS_AES_DECRYPT => cbcDecrypt ctx (length / 16) iv input
    (0, r.1, r.2 ++ output.drop length)

/-! ## libpcrypto.c -/

/-- The libc call `memset(buf, c, n)`. -/
def memset (buf : List Nat) (c n : Nat) : List Nat := List.replicate n c ++ buf.drop n

/-- The libc call `memcpy(dst, src, n)`. -/
def memcpy (dst src : List Nat) (n : Nat) : List Nat := src.take n ++ dst.drop n

/-- The local `iiv` of the four functions: 16 zero bytes, overwritten by the
caller's `iv` when that pointer is not null. -/
def local_iiv (iv : Option (List Nat)) : List Nat :=
  match iv with
  | some v => memcpy (List.replicate 16 0) v 16
  | none => List.replicate 16 0

/-- What `aes_encode` and `aes_decode` leave behind: the return code, the
caller's `iv` buffer and the `output` buffer. -/
structure CipherResult where
  ret : Int
  iv : Option (List Nat)
  output : List Nat
deriving DecidableEq, Repr

/-- The function `aes_encode`; the `int length` argument is taken non-negative. -/
def aes_encode (iv : Option (List Nat)) (key input output : List Nat) (length : Nat) :
    CipherResult :=
  let iiv := local_iiv iv
  let aes := mbedtls_aes_init
  let k := mbedtls_aes_setkey_enc aes key 128
  if k.1 ≠ 0 then
    { ret := 1, iv := iv, output := output }
  else
    let c := mbedtls_aes_crypt_cbc k.2 Mode.MBEDTLS_AES_ENCRYPT length iiv input output
    if c.1 ≠ 0 then
      { ret := 2, iv := iv, output := c.2.2 }
    else
      { ret := 0, iv := iv, output := c.2.2 }

/-- The function `aes_decode`; the `int length` argument is taken non-negative. -/
def aes_decode (iv : Option (List Nat)) (key input output : List Nat) (length : Nat) :
    CipherResult :=
  let iiv := local_iiv iv
  let aes := mbedtls_aes_init
  let k := mbedtls_aes_setkey_dec aes key 128
  if k.1 ≠ 0 then
    { ret := 1, iv := iv, output := output }
  else
    let c := mbedtls_aes_crypt_cbc k.2 Mode.MBEDTLS_AES_DECRYPT length iiv input output
    if c.1 ≠ 0 then
      { ret := 2, iv := iv, output := c.2.2 }
    else
      { ret := 0, iv := iv, output := c.2.2 }

/-- The type of `mbedtls_aes_cmac_prf_128(key, key_len, input, in_len, output)`,
a library function outside the source files: from the key, its length, the
input, its length and the 16-byte output buffer to the return code and the
output buffer afterwards. -/
abbrev CmacPrf : Type := List Nat → Nat → List Nat → Nat → List Nat → Int × List Nat

/-- The function `aes_cmac`; returns the code and the `mac` buffer. -/
def aes_cmac (mbedtls_aes_cmac_prf_128 : CmacPrf) (iv : Option (List Nat))
    (key input mac : List Nat) (length : Nat) : Int × List Nat :=
  let mac1 := memset mac 0x00 16
  let _iiv := local_iiv iv
  mbedtls_aes_cmac_prf_128 key 16 input length mac1

/-- The function `aes_cmac8`; returns the code and the `mac` buffer. -/
def aes_cmac8 (mbedtls_aes_cmac_prf_128 : CmacPrf) (iv : Option (List Nat))
    (key input mac : List Nat) (length : Nat) : Int × List Nat :=
  let cmac := List.replicate 16 0
  let mac1 := memset mac 0x00 8
  let r := aes_cmac mbedtls_aes_cmac_prf_128 iv key input cmac length
  if r.1 ≠ 0 then
    (r.1, mac1)
  else
    (0, (List.range 8).foldl (fun m i => m.set i (r.2.getD (i * 2 + 1) 0)) mac1)

/-! ## Vocabulary of the theorems and sample inputs -/

/-- A 16-byte block. -/
def IsBlock (s : List Nat) : Prop := s.length = 16 ∧ ∀ b ∈ s, b < 256

/-- A context whose round keys are all 16-byte blocks, with one key per round
and the initial one. -/
def ValidContext (ctx : mbedtls_aes_context) : Prop :=
  (∀ k ∈ ctx.rk, IsBlock k) ∧ ctx.nr < ctx.rk.length

/-- A stand-in for the CMAC library call that succeeds and writes the first
16 bytes of the key as the tag. -/
def keyEchoPrf : CmacPrf := fun key _ _ _ _ => (0, key.take 16)

/-- Key of the NIST SP 800-38A examples. -/
def nistKey : List Nat :=
  [0x2b, 0x7e, 0x15, 0x16, 0x28, 0xae, 0xd2, 0xa6, 0xab, 0xf7, 0x15, 0x88, 0x09, 0xcf, 0x4f, 0x3c]

/-- Initialization vector of the NIST SP 800-38A CBC examples. -/
def nistIv : List Nat :=
  [0x00, 0x01, 0x02, 0x03, 0x04, 0x05, 0x06, 0x07, 0x08, 0x09, 0x0a, 0x0b, 0x0c, 0x0d, 0x0e, 0x0f]

/-- First two plaintext blocks of the NIST SP 800-38A examples. -/
def nistPlain : List Nat :=
  [0x6b, 0xc1, 0xbe, 0xe2, 0x2e, 0x40, 0x9f, 0x96, 0xe9, 0x3d, 0x7e, 0x11, 0x73, 0x93, 0x17, 0x2a,
   0xae, 0x2d, 0x8a, 0x57, 0x1e, 0x03, 0xac, 0x9c, 0x9e, 0xb7, 0x6f, 0xac, 0x45, 0xaf, 0x8e, 0x51]

/-- First two ciphertext blocks of NIST SP 800-38A, F.2.1 (CBC-AES128.Encrypt). -/
def nistCipher : List Nat :=
  [0x76, 0x49, 0xab, 0xac, 0x81, 0x19, 0xb2, 0x46, 0xce, 0xe9, 0x8e, 0x9b, 0x12, 0xe9, 0x19, 0x7d,
   0x50, 0x86, 0xcb, 0x9b, 0x50, 0x72, 0x19, 0xee, 0x95, 0xdb, 0x11, 0x3a, 0x91, 0x76, 0x78, 0xb2]

end Libpcrypto

namespace Fido

/-! ## Theorems about cmdhffido.c -/

/-- More fuel does not change a result already obtained. -/
theorem loop_fuel_mono {σ : Type} (rd : Reader σ) (M : Nat) (k : Nat) :
    ∀ (f : Nat) (st o : Out σ), FIDOExchange_loop rd M f st = some o →
      FIDOExchange_loop rd M (f + k) st = some o := by
  intro f
  induction f with
  | zero => intro st o h; simp [FIDOExchange_loop] at h
  | succ n ih =>
    intro st o h
    rw [Nat.add_right_comm]
    simp only [FIDOExchange_loop] at h ⊢
    cases hs : FIDOExchange_iter rd M st with
    | done o1 => rw [hs] at h; simpa using h
    | again st1 => rw [hs] at h; simpa using ih st1 o h

/-- Running the loop from the start is running it from any loop head reached. -/
theorem loop_of_loopHead {σ : Type} (rd : Reader σ) (M : Nat) (f : Nat) :
    ∀ (k : Nat) (st st1 : Out σ), loopHead rd M k st = some st1 →
      FIDOExchange_loop rd M (k + f) st = FIDOExchange_loop rd M f st1 := by
  intro k
  induction k with
  | zero => intro st st1 h; simp [loopHead] at h; simp [h]
  | succ n ih =>
    intro st st1 h
    rw [Nat.add_right_comm]
    simp only [loopHead] at h
    simp only [FIDOExchange_loop]
    cases hs : FIDOExchange_iter rd M st with
    | done o1 => rw [hs] at h; simp at h
    | again st2 => rw [hs] at h; simpa using ih st2 st1 h

/-- A pass that comes back to the loop condition issued exactly one GET RESPONSE. -/
theorem iter_exchanges {σ : Type} (rd : Reader σ) (M : Nat) (st st1 : Out σ)
    (h : FIDOExchange_iter rd M st = Step.again st1) :
    st1.world.exchanges = st.world.exchanges ++
      [Request.exchange true GET_RESPONSE (size_sub M st.ResultLen)] := by
  unfold FIDOExchange_iter at h
  split at h
  · simp only at h
    split at h
    · simp at h
    · simp only [Step.again.injEq] at h
      subst h
      simp [callEMVExchange]
  · simp at h

/-- After `k` completed passes, `k` more exchanges have been issued. -/
theorem loopHead_exchanges_length {σ : Type} (rd : Reader σ) (M : Nat) :
    ∀ (k : Nat) (st st1 : Out σ), loopHead rd M k st = some st1 →
      st1.world.exchanges.length = st.world.exchanges.length + k := by
  intro k
  induction k with
  | zero => intro st st1 h; simp [loopHead] at h; simp [h]
  | succ n ih =>
    intro st st1 h
    simp only [loopHead] at h
    cases hs : FIDOExchange_iter rd M st with
    | done o1 => rw [hs] at h; simp at h
    | again st2 =>
      rw [hs] at h
      have h1 := ih st2 st1 h
      have h2 := iter_exchanges rd M st st2 hs
      rw [h1, h2]; simp; omega

/-- One pass when the loop condition holds: the body of the loop. -/
theorem iter_of_cond {σ : Type} (rd : Reader σ) (M : Nat) (st : Out σ)
    (h : st.res = 0 ∧ st.sw / 256 = 0x61) :
    FIDOExchange_iter rd M st =
      if size_add (callEMVExchange rd st.world true GET_RESPONSE st.Result st.ResultLen
          (size_sub M st.ResultLen)).ResultLen st.ResultLen > M then
        Step.done { callEMVExchange rd st.world true GET_RESPONSE st.Result st.ResultLen
          (size_sub M st.ResultLen) with
          res := 100
          ResultLen := size_add (callEMVExchange rd st.world true GET_RESPONSE st.Result
            st.ResultLen (size_sub M st.ResultLen)).ResultLen st.ResultLen }
      else
        Step.again { callEMVExchange rd st.world true GET_RESPONSE st.Result st.ResultLen
          (size_sub M st.ResultLen) with
          res := if (callEMVExchange rd st.world true GET_RESPONSE st.Result st.ResultLen
            (size_sub M st.ResultLen)).res = 5 then 0
            else (callEMVExchange rd st.world true GET_RESPONSE st.Result st.ResultLen
              (size_sub M st.ResultLen)).res
          ResultLen := size_add (callEMVExchange rd st.world true GET_RESPONSE st.Result
            st.ResultLen (size_sub M st.ResultLen)).ResultLen st.ResultLen } := by
  unfold FIDOExchange_iter
  rw [if_pos h]

/-- One pass when the loop condition fails: `return res`. -/
theorem iter_of_not_cond {σ : Type} (rd : Reader σ) (M : Nat) (st : Out σ)
    (h : ¬ (st.res = 0 ∧ st.sw / 256 = 0x61)) :
    FIDOExchange_iter rd M st = Step.done st := by
  unfold FIDOExchange_iter
  rw [if_neg h]

/-- C2 (overflow).  If the loop condition is evaluated for the `k+1`-th time
in state `st` and holds, and the continuation exchange then issued reports a
length whose `size_t` sum with the previous length exceeds `MaxResultLen`,
then `FIDOExchange` returns 100 at that iteration, whatever code and status
word the exchange gave, and that exchange is the last one: the card is left in
the state right after it and the exchanges issued are the initial one and
`k + 1` continuations. -/
theorem FIDOExchange_overflow {σ : Type} (rd : Reader σ) (w : World σ) (apdu : sAPDU)
    (Result : Nat → Nat) (MaxResultLen k fuel : Nat) (st : Out σ)
    (hreach : loopHead rd MaxResultLen k (FIDOExchange_init rd w apdu Result MaxResultLen) = some st)
    (hcond : st.res = 0 ∧ st.sw / 256 = 0x61)
    (hover : MaxResultLen < size_add
      (rd.EMVExchange st.world.card true GET_RESPONSE (size_sub MaxResultLen st.ResultLen)).1.ResultLen
      st.ResultLen)
    (hfuel : k < fuel) :
    ∃ o, FIDOExchange rd w apdu Result MaxResultLen fuel = some o ∧ o.res = 100 ∧
      o.world.card =
        (rd.EMVExchange st.world.card true GET_RESPONSE (size_sub MaxResultLen st.ResultLen)).2 ∧
      o.world.exchanges = st.world.exchanges ++
        [Request.exchange true GET_RESPONSE (size_sub MaxResultLen st.ResultLen)] ∧
      o.world.exchanges.length = w.exchanges.length + 1 + (k + 1) := by
  obtain ⟨f, rfl⟩ : ∃ f, fuel = k + (f + 1) := ⟨fuel - k - 1, by omega⟩
  have hlen := loopHead_exchanges_length rd MaxResultLen k _ st hreach
  have hover1 : size_add (callEMVExchange rd st.world true GET_RESPONSE st.Result st.ResultLen
      (size_sub MaxResultLen st.ResultLen)).ResultLen st.ResultLen > MaxResultLen := by
    simpa [callEMVExchange, size_add] using hover
  unfold FIDOExchange
  rw [loop_of_loopHead rd MaxResultLen (f + 1) k _ st hreach]
  simp only [FIDOExchange_loop]
  rw [iter_of_cond rd MaxResultLen st hcond, if_pos hover1]
  refine ⟨_, rfl, rfl, ?_, ?_, ?_⟩
  · simp [callEMVExchange]
  · simp [callEMVExchange]
  · simp [callEMVExchange, hlen, FIDOExchange_init]
    omega

/-- Against `stuckReader` the loop variables never change and the loop never ends. -/
theorem stuck_loop (M : Nat) : ∀ (fuel : Nat) (st : Out Unit),
    st.res = 0 → st.sw = 0x6100 → st.ResultLen = 0 →
      FIDOExchange_loop stuckReader M fuel st = none := by
  intro fuel
  induction fuel with
  | zero => intro st _ _ _; rfl
  | succ n ih =>
    intro st h1 h2 h3
    simp only [FIDOExchange_loop]
    rw [iter_of_cond stuckReader M st ⟨h1, by rw [h2]⟩]
    have hlen : size_add (callEMVExchange stuckReader st.world true GET_RESPONSE st.Result
        st.ResultLen (size_sub M st.ResultLen)).ResultLen st.ResultLen = 0 := by
      simp [callEMVExchange, stuckReader, size_add, h3]
    rw [hlen, if_neg (by omega)]
    simp only
    apply ih
    · simp [callEMVExchange, stuckReader]
    · simp [callEMVExchange, stuckReader]
    · rfl

/-- Counterexample to C3: against a card that answers every exchange with code
0, status word `0x6100` and a part of length 0, `FIDOExchange` never returns,
whatever the fuel. -/
theorem FIDOExchange_zero_parts_never_returns :
    ¬ ∃ fuel, (FIDOExchange stuckReader (freshWorld ()) registerAPDU zeroBuf 2048 fuel).isSome = true := by
  rintro ⟨fuel, h⟩
  have := stuck_loop 2048 fuel (FIDOExchange_init stuckReader (freshWorld ()) registerAPDU zeroBuf 2048)
    (by simp [FIDOExchange_init, callEMVExchange, stuckReader])
    (by simp [FIDOExchange_init, callEMVExchange, stuckReader])
    (by simp [FIDOExchange_init, callEMVExchange, stuckReader])
  unfold FIDOExchange at h
  rw [this] at h
  simp at h

/-- With parts of length at least 1 the distance to the capacity shrinks at every
pass, so the overflow return is reached within `m` passes. -/
theorem loop_bounded {σ : Type} (rd : Reader σ) (M : Nat)
    (hcard : ∀ (s : σ) (leave : Bool) (a : sAPDU) (cap : Nat),
      ((rd.EMVExchange s leave a cap).1.res = 0 ∨ (rd.EMVExchange s leave a cap).1.res = 5) ∧
      (rd.EMVExchange s leave a cap).1.sw % 65536 / 256 = 0x61 ∧
      1 ≤ (rd.EMVExchange s leave a cap).1.ResultLen ∧
      (rd.EMVExchange s leave a cap).1.ResultLen + M < SIZE_MOD) :
    ∀ (m : Nat) (st : Out σ), st.res = 0 → st.sw / 256 = 0x61 → st.ResultLen ≤ M →
      M + 1 - st.ResultLen ≤ m →
      ∃ o, FIDOExchange_loop rd M m st = some o ∧ o.res = 100 ∧
        o.world.exchanges.length ≤ st.world.exchanges.length + m := by
  intro m
  induction m with
  | zero => intro st _ _ h3 h4; omega
  | succ n ih =>
    intro st h1 h2 h3 h4
    obtain ⟨hres, hsw, hpos, hfit⟩ :=
      hcard st.world.card true GET_RESPONSE (size_sub M st.ResultLen)
    simp only [FIDOExchange_loop]
    rw [iter_of_cond rd M st ⟨h1, h2⟩]
    have hlen : size_add (callEMVExchange rd st.world true GET_RESPONSE st.Result
        st.ResultLen (size_sub M st.ResultLen)).ResultLen st.ResultLen =
        (rd.EMVExchange st.world.card true GET_RESPONSE (size_sub M st.ResultLen)).1.ResultLen
          + st.ResultLen := by
      simp only [callEMVExchange, size_add]
      rw [Nat.mod_eq_of_lt (a := (rd.EMVExchange st.world.card true GET_RESPONSE
        (size_sub M st.ResultLen)).1.ResultLen) (by omega)]
      exact Nat.mod_eq_of_lt (by omega)
    by_cases hover : size_add (callEMVExchange rd st.world true GET_RESPONSE st.Result
        st.ResultLen (size_sub M st.ResultLen)).ResultLen st.ResultLen > M
    · rw [if_pos hover]
      refine ⟨_, rfl, rfl, ?_⟩
      simp [callEMVExchange]
    · rw [if_neg hover]
      simp only
      have := ih { callEMVExchange rd st.world true GET_RESPONSE st.Result st.ResultLen
          (size_sub M st.ResultLen) with
          res := if (callEMVExchange rd st.world true GET_RESPONSE st.Result st.ResultLen
            (size_sub M st.ResultLen)).res = 5 then 0
            else (callEMVExchange rd st.world true GET_RESPONSE st.Result st.ResultLen
              (size_sub M st.ResultLen)).res
          ResultLen := size_add (callEMVExchange rd st.world true GET_RESPONSE st.Result
            st.ResultLen (size_sub M st.ResultLen)).ResultLen st.ResultLen }
        (by rcases hres with h | h <;> simp [callEMVExchange, h])
        (by simpa [callEMVExchange] using hsw)
        (by simp only; omega)
        (by simp only; omega)
      obtain ⟨o, ho, hr, hl⟩ := this
      refine ⟨o, ho, hr, ?_⟩
      simp [callEMVExchange] at hl
      omega

/-- C3 as amended (bounded chaining).  If every exchange is answered with code 0
or 5, a status word `0x61xx` and a reported length of at least 1 that cannot
wrap the `size_t` total (`ResultLen + MaxResultLen < 2^64`), then
`FIDOExchange` returns 100 after at most `MaxResultLen + 2` evaluations of the
loop condition, having issued at most `MaxResultLen + 3` exchanges. -/
theorem FIDOExchange_bounded {σ : Type} (rd : Reader σ) (w : World σ) (apdu : sAPDU)
    (Result : Nat → Nat) (MaxResultLen : Nat)
    (hcard : ∀ (s : σ) (leave : Bool) (a : sAPDU) (cap : Nat),
      ((rd.EMVExchange s leave a cap).1.res = 0 ∨ (rd.EMVExchange s leave a cap).1.res = 5) ∧
      (rd.EMVExchange s leave a cap).1.sw % 65536 / 256 = 0x61 ∧
      1 ≤ (rd.EMVExchange s leave a cap).1.ResultLen ∧
      (rd.EMVExchange s leave a cap).1.ResultLen + MaxResultLen < SIZE_MOD) :
    ∃ o, FIDOExchange rd w apdu Result MaxResultLen (MaxResultLen + 2) = some o ∧ o.res = 100 ∧
      o.world.exchanges.length ≤ w.exchanges.length + 1 + (MaxResultLen + 2) := by
  obtain ⟨hres, hsw, -, -⟩ := hcard w.card true apdu MaxResultLen
  have h1 : (FIDOExchange_init rd w apdu Result MaxResultLen).res = 0 := by
    rcases hres with h | h <;> simp [FIDOExchange_init, callEMVExchange, h]
  have h2 : (FIDOExchange_init rd w apdu Result MaxResultLen).sw / 256 = 0x61 := by
    simpa [FIDOExchange_init, callEMVExchange] using hsw
  have h3 : (FIDOExchange_init rd w apdu Result MaxResultLen).world.exchanges.length =
      w.exchanges.length + 1 := by
    simp [FIDOExchange_init, callEMVExchange]
  unfold FIDOExchange
  generalize FIDOExchange_init rd w apdu Result MaxResultLen = st at h1 h2 h3
  by_cases hle : st.ResultLen ≤ MaxResultLen
  · obtain ⟨o, ho, hr, hl⟩ := loop_bounded rd MaxResultLen hcard (MaxResultLen + 1) st h1 h2 hle
      (by omega)
    exact ⟨o, loop_fuel_mono rd MaxResultLen 1 _ st o ho, hr, by omega⟩
  · obtain ⟨hres1, hsw1, -, -⟩ :=
      hcard st.world.card true GET_RESPONSE (size_sub MaxResultLen st.ResultLen)
    simp only [FIDOExchange_loop]
    rw [iter_of_cond rd MaxResultLen st ⟨h1, h2⟩]
    by_cases hover : size_add (callEMVExchange rd st.world true GET_RESPONSE st.Result
        st.ResultLen (size_sub MaxResultLen st.ResultLen)).ResultLen st.ResultLen > MaxResultLen
    · rw [if_pos hover]
      refine ⟨_, rfl, rfl, ?_⟩
      simp [callEMVExchange]
      omega
    · rw [if_neg hover]
      simp only
      obtain ⟨o, ho, hr, hl⟩ := loop_bounded rd MaxResultLen hcard (MaxResultLen + 1)
        { callEMVExchange rd st.world true GET_RESPONSE st.Result st.ResultLen
          (size_sub MaxResultLen st.ResultLen) with
          res := if (callEMVExchange rd st.world true GET_RESPONSE st.Result st.ResultLen
            (size_sub MaxResultLen st.ResultLen)).res = 5 then 0
            else (callEMVExchange rd st.world true GET_RESPONSE st.Result st.ResultLen
              (size_sub MaxResultLen st.ResultLen)).res
          ResultLen := size_add (callEMVExchange rd st.world true GET_RESPONSE st.Result
            st.ResultLen (size_sub MaxResultLen st.ResultLen)).ResultLen st.ResultLen }
        (by rcases hres1 with h | h <;> simp [callEMVExchange, h])
        (by simpa [callEMVExchange] using hsw1)
        (by simp only; omega)
        (by simp only; omega)
      refine ⟨o, ho, hr, ?_⟩
      simp [callEMVExchange] at hl
      omega

/-- C3 witness -/
theorem FIDOExchange_bounded_witness :
    ∃ o, FIDOExchange chattyReader (freshWorld ()) registerAPDU zeroBuf 4 (4 + 2) = some o ∧
      o.res = 100 ∧
      o.world.exchanges.length ≤ (freshWorld ()).exchanges.length + 1 + (4 + 2) :=
  FIDOExchange_bounded chattyReader (freshWorld ()) registerAPDU zeroBuf 4
    (by intro s leave a cap; simp only [chattyReader, SIZE_MOD]; decide)

/-- The loop never turns a result different from 5 into 5. -/
theorem loop_res_ne_five {σ : Type} (rd : Reader σ) (M : Nat) :
    ∀ (fuel : Nat) (st o : Out σ), st.res ≠ 5 → FIDOExchange_loop rd M fuel st = some o →
      o.res ≠ 5 := by
  intro fuel
  induction fuel with
  | zero => intro st o _ h; simp [FIDOExchange_loop] at h
  | succ n ih =>
    intro st o hst h
    simp only [FIDOExchange_loop] at h
    by_cases hc : st.res = 0 ∧ st.sw / 256 = 0x61
    · rw [iter_of_cond rd M st hc] at h
      by_cases hover : size_add (callEMVExchange rd st.world true GET_RESPONSE st.Result
          st.ResultLen (size_sub M st.ResultLen)).ResultLen st.ResultLen > M
      · rw [if_pos hover] at h
        simp only [Option.some.injEq] at h
        subst h
        simp
      · rw [if_neg hover] at h
        simp only at h
        refine ih _ o ?_ h
        simp only
        split
        · decide
        · assumption
    · rw [iter_of_not_cond rd M st hc] at h
      simp only [Option.some.injEq] at h
      subst h
      exact hst

/-- Started within the capacity, the loop ends within the capacity or with the
overflow return. -/
theorem loop_len_bound {σ : Type} (rd : Reader σ) (M : Nat) :
    ∀ (fuel : Nat) (st o : Out σ), st.ResultLen ≤ M → FIDOExchange_loop rd M fuel st = some o →
      o.ResultLen ≤ M ∨ (o.res = 100 ∧ M < o.ResultLen) := by
  intro fuel
  induction fuel with
  | zero => intro st o _ h; simp [FIDOExchange_loop] at h
  | succ n ih =>
    intro st o hst h
    simp only [FIDOExchange_loop] at h
    by_cases hc : st.res = 0 ∧ st.sw / 256 = 0x61
    · rw [iter_of_cond rd M st hc] at h
      by_cases hover : size_add (callEMVExchange rd st.world true GET_RESPONSE st.Result
          st.ResultLen (size_sub M st.ResultLen)).ResultLen st.ResultLen > M
      · rw [if_pos hover] at h
        simp only [Option.some.injEq] at h
        subst h
        exact Or.inr ⟨rfl, hover⟩
      · rw [if_neg hover] at h
        simp only at h
        exact ih _ o (by simp only; omega) h
    · rw [iter_of_not_cond rd M st hc] at h
      simp only [Option.some.injEq] at h
      subst h
      exact Or.inl hst

/-- C7 as amended (length on return).  When `FIDOExchange` returns and the
initial exchange reported a length within `MaxResultLen`, either `*ResultLen`
is within `MaxResultLen`, or the result is 100 and `*ResultLen` exceeds
`MaxResultLen`. -/
theorem FIDOExchange_length_invariant {σ : Type} (rd : Reader σ) (w : World σ) (apdu : sAPDU)
    (Result : Nat → Nat) (MaxResultLen fuel : Nat) (o : Out σ)
    (hret : FIDOExchange rd w apdu Result MaxResultLen fuel = some o)
    (hinit : (rd.EMVExchange w.card true apdu MaxResultLen).1.ResultLen % SIZE_MOD ≤ MaxResultLen) :
    o.ResultLen ≤ MaxResultLen ∨ (o.res = 100 ∧ MaxResultLen < o.ResultLen) :=
  loop_len_bound rd MaxResultLen fuel _ o
    (by simpa [FIDOExchange_init, callEMVExchange] using hinit) hret

/-- C5 as amended (failure propagation).  A failing initial exchange (code
neither 0 nor 5) makes `FIDOExchange` return that code after exactly one
exchange.  A failing continuation exchange ends the chain with no further
exchange; the result is that code, unless the accumulated length exceeds
`MaxResultLen`, in which case it is 100. -/
theorem FIDOExchange_failure_propagation {σ : Type} (rd : Reader σ) (w : World σ) (apdu : sAPDU)
    (Result : Nat → Nat) (MaxResultLen : Nat) :
    (∀ fuel : Nat,
      (rd.EMVExchange w.card true apdu MaxResultLen).1.res ≠ 0 →
      (rd.EMVExchange w.card true apdu MaxResultLen).1.res ≠ 5 →
      0 < fuel →
      ∃ o, FIDOExchange rd w apdu Result MaxResultLen fuel = some o ∧
        o.res = (rd.EMVExchange w.card true apdu MaxResultLen).1.res ∧
        o.world.exchanges = w.exchanges ++ [Request.exchange true apdu MaxResultLen]) ∧
    (∀ (k fuel : Nat) (st : Out σ),
      loopHead rd MaxResultLen k (FIDOExchange_init rd w apdu Result MaxResultLen) = some st →
      (st.res = 0 ∧ st.sw / 256 = 0x61) →
      (rd.EMVExchange st.world.card true GET_RESPONSE
        (size_sub MaxResultLen st.ResultLen)).1.res ≠ 0 →
      (rd.EMVExchange st.world.card true GET_RESPONSE
        (size_sub MaxResultLen st.ResultLen)).1.res ≠ 5 →
      k + 1 < fuel →
      ∃ o, FIDOExchange rd w apdu Result MaxResultLen fuel = some o ∧
        o.res = (if MaxResultLen < size_add (rd.EMVExchange st.world.card true GET_RESPONSE
            (size_sub MaxResultLen st.ResultLen)).1.ResultLen st.ResultLen then 100
          else (rd.EMVExchange st.world.card true GET_RESPONSE
            (size_sub MaxResultLen st.ResultLen)).1.res) ∧
        o.world.exchanges = st.world.exchanges ++
          [Request.exchange true GET_RESPONSE (size_sub MaxResultLen st.ResultLen)]) := by
  constructor
  · intro fuel h0 h5 hfuel
    obtain ⟨f, rfl⟩ : ∃ f, fuel = f + 1 := ⟨fuel - 1, by omega⟩
    have hres : (FIDOExchange_init rd w apdu Result MaxResultLen).res =
        (rd.EMVExchange w.card true apdu MaxResultLen).1.res := by
      simp [FIDOExchange_init, callEMVExchange, h5]
    unfold FIDOExchange
    simp only [FIDOExchange_loop]
    rw [iter_of_not_cond rd MaxResultLen _ (by rw [hres]; exact fun h => h0 h.1)]
    exact ⟨_, rfl, hres, by simp [FIDOExchange_init, callEMVExchange]⟩
  · intro k fuel st hreach hcond h0 h5 hfuel
    obtain ⟨f, rfl⟩ : ∃ f, fuel = k + (f + 2) := ⟨fuel - k - 2, by omega⟩
    have hsum : size_add (callEMVExchange rd st.world true GET_RESPONSE st.Result st.ResultLen
        (size_sub MaxResultLen st.ResultLen)).ResultLen st.ResultLen =
        size_add (rd.EMVExchange st.world.card true GET_RESPONSE
          (size_sub MaxResultLen st.ResultLen)).1.ResultLen st.ResultLen := by
      simp [callEMVExchange, size_add]
    unfold FIDOExchange
    rw [loop_of_loopHead rd MaxResultLen (f + 2) k _ st hreach]
    simp only [FIDOExchange_loop]
    rw [iter_of_cond rd MaxResultLen st hcond, hsum]
    by_cases hover : MaxResultLen < size_add (rd.EMVExchange st.world.card true GET_RESPONSE
        (size_sub MaxResultLen st.ResultLen)).1.ResultLen st.ResultLen
    · rw [if_pos hover, if_pos hover]
      exact ⟨_, rfl, rfl, by simp [callEMVExchange]⟩
    · rw [if_neg hover, if_neg hover]
      simp only
      rw [iter_of_not_cond]
      · refine ⟨_, rfl, ?_, by simp [callEMVExchange]⟩
        simp [callEMVExchange, h5]
      · simp [callEMVExchange, h5, h0]

/-- C6 as amended (status-driven chaining).  The loop variable `res` is 0 after
an exchange exactly when its code was 0 or 5, for the initial exchange and for
every continuation that comes back to the loop condition.  Whenever the loop
condition is reached with `res = 0`, the next pass issues exactly one GET
RESPONSE `00 C0 00 00 00` if the high byte of `*sw` is `0x61`, and otherwise
`FIDOExchange` returns with these variables and no further exchange.
`FIDOExchange` never returns 5. -/
theorem FIDOExchange_status_driven {σ : Type} (rd : Reader σ) (w : World σ) (apdu : sAPDU)
    (Result : Nat → Nat) (MaxResultLen : Nat) :
    ((FIDOExchange_init rd w apdu Result MaxResultLen).res = 0 ↔
      ((rd.EMVExchange w.card true apdu MaxResultLen).1.res = 0 ∨
       (rd.EMVExchange w.card true apdu MaxResultLen).1.res = 5)) ∧
    (∀ st st1 : Out σ, FIDOExchange_iter rd MaxResultLen st = Step.again st1 →
      (st1.res = 0 ↔
        ((rd.EMVExchange st.world.card true GET_RESPONSE
            (size_sub MaxResultLen st.ResultLen)).1.res = 0 ∨
         (rd.EMVExchange st.world.card true GET_RESPONSE
            (size_sub MaxResultLen st.ResultLen)).1.res = 5))) ∧
    (∀ (k : Nat) (st : Out σ),
      loopHead rd MaxResultLen k (FIDOExchange_init rd w apdu Result MaxResultLen) = some st →
      st.res = 0 →
      (st.sw / 256 = 0x61 →
        (FIDOExchange_iter rd MaxResultLen st).out.world.exchanges = st.world.exchanges ++
          [Request.exchange true GET_RESPONSE (size_sub MaxResultLen st.ResultLen)]) ∧
      (st.sw / 256 ≠ 0x61 →
        ∀ fuel : Nat, k < fuel →
          FIDOExchange rd w apdu Result MaxResultLen fuel = some st)) ∧
    (∀ (fuel : Nat) (o : Out σ),
      FIDOExchange rd w apdu Result MaxResultLen fuel = some o → o.res ≠ 5) := by
  refine ⟨?_, ?_, ?_, ?_⟩
  · simp only [FIDOExchange_init, callEMVExchange]
    constructor
    · intro h
      by_cases h5 : (rd.EMVExchange w.card true apdu MaxResultLen).1.res = 5
      · exact Or.inr h5
      · rw [if_neg h5] at h; exact Or.inl h
    · rintro (h | h) <;> simp [h]
  · intro st st1 h
    by_cases hc : st.res = 0 ∧ st.sw / 256 = 0x61
    · rw [iter_of_cond rd MaxResultLen st hc] at h
      by_cases hover : size_add (callEMVExchange rd st.world true GET_RESPONSE st.Result
          st.ResultLen (size_sub MaxResultLen st.ResultLen)).ResultLen st.ResultLen > MaxResultLen
      · rw [if_pos hover] at h; simp at h
      · rw [if_neg hover] at h
        simp only [Step.again.injEq] at h
        subst h
        simp only [callEMVExchange]
        constructor
        · intro h
          by_cases h5 : (rd.EMVExchange st.world.card true GET_RESPONSE
              (size_sub MaxResultLen st.ResultLen)).1.res = 5
          · exact Or.inr h5
          · rw [if_neg h5] at h; exact Or.inl h
        · rintro (h | h) <;> simp [h]
    · rw [iter_of_not_cond rd MaxResultLen st hc] at h; simp at h
  · intro k st hreach hres
    constructor
    · intro hsw
      rw [iter_of_cond rd MaxResultLen st ⟨hres, hsw⟩]
      split <;> simp [Step.out, callEMVExchange]
    · intro hsw fuel hfuel
      obtain ⟨f, rfl⟩ : ∃ f, fuel = k + (f + 1) := ⟨fuel - k - 1, by omega⟩
      unfold FIDOExchange
      rw [loop_of_loopHead rd MaxResultLen (f + 1) k _ st hreach]
      simp only [FIDOExchange_loop]
      rw [iter_of_not_cond rd MaxResultLen st (fun h => hsw h.2)]
  · intro fuel o h
    refine loop_res_ne_five rd MaxResultLen fuel _ o ?_ h
    simp only [FIDOExchange_init]
    split
    · decide
    · assumption

/-- Storing at offset `off` keeps the bytes below `off` and appends the stored ones. -/
theorem readBytes_store (mem : Nat → Nat) (off l : Nat) (bytes : List Nat)
    (hl : l ≤ bytes.length) :
    readBytes (store mem off bytes) (off + l) = readBytes mem off ++ bytes.take l := by
  apply List.ext_getElem
  · simp [readBytes, Nat.min_eq_left hl]
  · intro i h1 h2
    simp only [readBytes, List.getElem_map, List.getElem_range]
    by_cases hi : i < off
    · rw [List.getElem_append_left (by simpa [readBytes] using hi)]
      simp only [store, List.getElem_map, List.getElem_range]
      rw [if_neg (by omega)]
    · have hlen : (List.map mem (List.range off)).length = off := by simp
      rw [List.getElem_append_right (by simp; omega)]
      simp only [store, hlen, List.getElem_take]
      simp only [readBytes, List.length_map, List.length_range] at h1
      rw [if_pos (by omega)]
      rw [List.getD_eq_getElem _ _ (by omega)]

/-- The chaining loop on a card that delivers the parts of `rs` and then the
final part of `rN`. -/
theorem chain_loop {σ : Type} (rd : Reader σ) (M : Nat) (hM : M < SIZE_MOD) (rN : ExchangeReply)
    (hlast : (rN.res = 0 ∨ rN.res = 5) ∧ rN.sw = 0x9000) (hlenN : rN.ResultLen ≤ rN.Result.length) :
    ∀ (rs : List ExchangeReply) (st : Out σ), st.res = 0 → st.sw / 256 = 0x61 →
      chainReplies rd M st.world.card st.ResultLen (rs ++ [rN]) →
      (∀ r ∈ rs, (r.res = 0 ∨ r.res = 5) ∧ r.sw / 256 = 0x61 ∧ r.sw < 65536) →
      (∀ r ∈ rs, r.ResultLen ≤ r.Result.length) →
      st.ResultLen + ((rs ++ [rN]).map ExchangeReply.ResultLen).sum ≤ M →
      ∃ o, FIDOExchange_loop rd M (rs.length + 2) st = some o ∧ o.res = 0 ∧ o.sw = 0x9000 ∧
        o.ResultLen = st.ResultLen + ((rs ++ [rN]).map ExchangeReply.ResultLen).sum ∧
        readBytes o.Result o.ResultLen =
          readBytes st.Result st.ResultLen ++ ((rs ++ [rN]).map part).flatten ∧
        o.world.exchanges.length = st.world.exchanges.length + (rs.length + 1) := by
  intro rs
  induction rs with
  | nil =>
    intro st h1 h2 hch _ _ hcap
    simp only [List.nil_append, chainReplies, and_true] at hch
    simp only [List.nil_append, List.map_cons, List.map_nil, List.sum_cons, List.sum_nil,
      Nat.add_zero] at hcap
    have hlen : size_add (callEMVExchange rd st.world true GET_RESPONSE st.Result
        st.ResultLen (size_sub M st.ResultLen)).ResultLen st.ResultLen =
        st.ResultLen + rN.ResultLen := by
      simp only [callEMVExchange, size_add, hch]
      rw [Nat.mod_eq_of_lt (a := rN.ResultLen) (by omega), Nat.add_comm]
      exact Nat.mod_eq_of_lt (by omega)
    simp only [FIDOExchange_loop, List.length_nil]
    rw [iter_of_cond rd M st ⟨h1, h2⟩, hlen, if_neg (by omega)]
    simp only
    rw [iter_of_not_cond _ _ _ (by
      intro h
      have h2 := h.2
      simp only [callEMVExchange, hch, hlast.2] at h2
      exact absurd h2 (by decide))]
    refine ⟨_, rfl, ?_, ?_, ?_, ?_, ?_⟩
    · rcases hlast.1 with h | h <;> simp [callEMVExchange, hch, h]
    · simp [callEMVExchange, hch, hlast.2]
    · simp
    · simp only [callEMVExchange, hch, List.nil_append, List.map_cons, List.map_nil,
        List.flatten_cons, List.flatten_nil, List.append_nil, part]
      exact readBytes_store _ _ _ _ hlenN
    · simp [callEMVExchange]
  | cons r rs ih =>
    intro st h1 h2 hch hmore hlens hcap
    simp only [List.cons_append, chainReplies] at hch
    obtain ⟨hr, hch⟩ := hch
    simp only [List.cons_append, List.map_cons, List.sum_cons] at hcap
    obtain ⟨hrres, hrsw, hrlt⟩ := hmore r (List.mem_cons_self _ _)
    have hrlen := hlens r (List.mem_cons_self _ _)
    have hlen : size_add (callEMVExchange rd st.world true GET_RESPONSE st.Result
        st.ResultLen (size_sub M st.ResultLen)).ResultLen st.ResultLen =
        st.ResultLen + r.ResultLen := by
      simp only [callEMVExchange, size_add, hr]
      rw [Nat.mod_eq_of_lt (a := r.ResultLen) (by omega), Nat.add_comm]
      exact Nat.mod_eq_of_lt (by omega)
    rw [show (r :: rs).length + 2 = (rs.length + 2) + 1 from rfl]
    simp only [FIDOExchange_loop]
    rw [iter_of_cond rd M st ⟨h1, h2⟩, hlen, if_neg (by omega)]
    simp only
    obtain ⟨o, ho, ho1, ho2, ho3, ho4, ho5⟩ := ih
      { callEMVExchange rd st.world true GET_RESPONSE st.Result st.ResultLen
          (size_sub M st.ResultLen) with
          res := if (callEMVExchange rd st.world true GET_RESPONSE st.Result st.ResultLen
            (size_sub M st.ResultLen)).res = 5 then 0
            else (callEMVExchange rd st.world true GET_RESPONSE st.Result st.ResultLen
              (size_sub M st.ResultLen)).res
          ResultLen := st.ResultLen + r.ResultLen }
      (by rcases hrres with h | h <;> simp [callEMVExchange, hr, h])
      (by simp only [callEMVExchange, hr]; rw [Nat.mod_eq_of_lt hrlt]; exact hrsw)
      (by simpa [callEMVExchange] using hch)
      (fun x hx => hmore x (List.mem_cons_of_mem _ hx))
      (fun x hx => hlens x (List.mem_cons_of_mem _ hx))
      (by simp only; omega)
    refine ⟨o, ho, ho1, ho2, ?_, ?_, ?_⟩
    · rw [ho3]; simp only [List.cons_append, List.map_cons, List.sum_cons]; omega
    · rw [ho4]
      simp only [callEMVExchange, hr, List.cons_append, List.map_cons, List.flatten_cons, part]
      rw [readBytes_store _ _ _ _ hrlen, List.append_assoc]
    · rw [ho5]; simp [callEMVExchange]; omega

/-- C1 (chaining concatenation).  Let the initial exchange give reply `r0` and
the following GET RESPONSE exchanges the replies `rs` and then `rN`, where
`r0` and every reply of `rs` have code 0 or 5 and a status word `0x61xx`, `rN`
has code 0 or 5 and status word `0x9000`, every reply stored at least the
`ResultLen` bytes it reports (its part), and the parts together fit into
`MaxResultLen`.  Then `FIDOExchange` returns 0, `*sw = 0x9000`, `*ResultLen`
is the total length of the parts, `Result[0 .. *ResultLen)` is the
concatenation of the parts in order, and exactly `N = |rs| + 1` continuation
exchanges follow the initial one. -/
theorem FIDOExchange_chaining {σ : Type} (rd : Reader σ) (w : World σ) (apdu : sAPDU)
    (Result : Nat → Nat) (MaxResultLen : Nat) (r0 : ExchangeReply) (rs : List ExchangeReply)
    (rN : ExchangeReply)
    (hMax : MaxResultLen < SIZE_MOD)
    (h0 : (rd.EMVExchange w.card true apdu MaxResultLen).1 = r0)
    (hchain : chainReplies rd MaxResultLen (rd.EMVExchange w.card true apdu MaxResultLen).2
      r0.ResultLen (rs ++ [rN]))
    (hmore : ∀ r ∈ r0 :: rs, (r.res = 0 ∨ r.res = 5) ∧ r.sw / 256 = 0x61 ∧ r.sw < 65536)
    (hlast : (rN.res = 0 ∨ rN.res = 5) ∧ rN.sw = 0x9000)
    (hparts : ∀ r ∈ r0 :: (rs ++ [rN]), r.ResultLen ≤ r.Result.length)
    (hcap : ((r0 :: (rs ++ [rN])).map (fun r => (part r).length)).sum ≤ MaxResultLen) :
    ∃ o, FIDOExchange rd w apdu Result MaxResultLen (rs.length + 2) = some o ∧
      o.res = 0 ∧ o.sw = 0x9000 ∧
      o.ResultLen = ((r0 :: (rs ++ [rN])).map (fun r => (part r).length)).sum ∧
      readBytes o.Result o.ResultLen = ((r0 :: (rs ++ [rN])).map part).flatten ∧
      o.world.exchanges.length = w.exchanges.length + 1 + (rs.length + 1) := by
  have hpl : ∀ l : List ExchangeReply, (∀ r ∈ l, r.ResultLen ≤ r.Result.length) →
      l.map (fun r => (part r).length) = l.map ExchangeReply.ResultLen := by
    intro l hl
    apply List.map_congr_left
    intro r hr
    simp [part, Nat.min_eq_left (hl r hr)]
  rw [hpl _ hparts] at hcap ⊢
  simp only [List.map_cons, List.sum_cons] at hcap
  obtain ⟨hres0, hsw0, hlt0⟩ := hmore r0 (List.mem_cons_self _ _)
  have hlen0 := hparts r0 (List.mem_cons_self _ _)
  have hst1 : (FIDOExchange_init rd w apdu Result MaxResultLen).res = 0 := by
    rcases hres0 with h | h <;> simp [FIDOExchange_init, callEMVExchange, h0, h]
  have hst2 : (FIDOExchange_init rd w apdu Result MaxResultLen).sw / 256 = 0x61 := by
    simp only [FIDOExchange_init, callEMVExchange, h0]
    rw [Nat.mod_eq_of_lt hlt0]; exact hsw0
  have hst3 : (FIDOExchange_init rd w apdu Result MaxResultLen).ResultLen = r0.ResultLen := by
    simp only [FIDOExchange_init, callEMVExchange, h0]
    exact Nat.mod_eq_of_lt (by omega)
  have hst4 : (FIDOExchange_init rd w apdu Result MaxResultLen).world.card =
      (rd.EMVExchange w.card true apdu MaxResultLen).2 := rfl
  have hst5 : (FIDOExchange_init rd w apdu Result MaxResultLen).Result =
      store Result 0 r0.Result := by
    simp only [FIDOExchange_init, callEMVExchange, h0]
  have hst6 : (FIDOExchange_init rd w apdu Result MaxResultLen).world.exchanges.length =
      w.exchanges.length + 1 := by
    simp [FIDOExchange_init, callEMVExchange]
  obtain ⟨o, ho, ho1, ho2, ho3, ho4, ho5⟩ := chain_loop rd MaxResultLen hMax rN hlast
    (hparts rN (by simp)) rs (FIDOExchange_init rd w apdu Result MaxResultLen) hst1 hst2
    (by rw [hst3, hst4]; exact hchain)
    (fun r hr => hmore r (List.mem_cons_of_mem _ hr))
    (fun r hr => hparts r (by simp [hr]))
    (by rw [hst3]; exact hcap)
  refine ⟨o, ho, ho1, ho2, ?_, ?_, ?_⟩
  · rw [ho3, hst3]; simp
  · rw [ho4, hst3, hst5]
    have := readBytes_store Result 0 r0.ResultLen r0.Result hlen0
    simp only [Nat.zero_add] at this
    rw [this]
    simp [readBytes, part]
  · rw [ho5, hst6]

/-- Witness of C1: a three-part response `[1,2,3]`, `[4,5]`, `[6]` into a buffer
of capacity 8. -/
theorem FIDOExchange_chaining_witness :
    ∃ o, FIDOExchange scriptReader (freshWorld threeParts) registerAPDU zeroBuf 8 3 = some o ∧
      o.res = 0 ∧ o.sw = 0x9000 ∧ o.ResultLen = 6 ∧
      readBytes o.Result o.ResultLen = [1, 2, 3, 4, 5, 6] ∧
      o.world.exchanges.length = 3 :=
  FIDOExchange_chaining scriptReader (freshWorld threeParts) registerAPDU zeroBuf 8
    { res := 5, Result := [1, 2, 3, 0x61, 0x02], ResultLen := 3, sw := 0x6102 }
    [{ res := 5, Result := [4, 5, 0x61, 0x01], ResultLen := 2, sw := 0x6101 }]
    { res := 0, Result := [6, 0x90, 0x00], ResultLen := 1, sw := 0x9000 }
    (by decide) rfl ⟨rfl, rfl, trivial⟩ (by decide) (by decide) (by decide) (by decide)

/-- Witness of C2: four bytes, four more that fill the capacity of 8, then a
second continuation reporting two more with status `0x6101`; the function
returns 100 there and the fourth reply is never requested. -/
theorem FIDOExchange_overflow_witness :
    ∃ o, FIDOExchange scriptReader (freshWorld lateOverflowScript) registerAPDU zeroBuf 8 2 =
        some o ∧
      o.res = 100 ∧
      o.world.card = [{ res := 0, Result := [11], ResultLen := 1, sw := 0x9000 }] ∧
      o.world.exchanges = lateOverflowHead.world.exchanges ++ [Request.exchange true GET_RESPONSE 0] ∧
      o.world.exchanges.length = 3 :=
  FIDOExchange_overflow scriptReader (freshWorld lateOverflowScript) registerAPDU zeroBuf 8 1 2
    lateOverflowHead rfl (by decide) (by decide) (by decide)

/-- Counterexample to C5: the continuation exchange fails with code 2 and
reports ten bytes for a capacity of eight; `FIDOExchange` returns 100, not 2. -/
theorem FIDOExchange_failure_code_replaced :
    failingScript.map ExchangeReply.res = [5, 2] ∧
    (FIDOExchange scriptReader (freshWorld failingScript) registerAPDU zeroBuf 8 5).map
      (fun o => (o.res, o.world.exchanges.length)) = some (100, 2) := by
  decide

/-- Witness of C5: an absent card (code 1 on the initial exchange), and a link
that breaks on the first continuation. -/
theorem FIDOExchange_failure_propagation_witness :
    (∃ o, FIDOExchange scriptReader (freshWorld []) registerAPDU zeroBuf 8 1 = some o ∧
      o.res = 1 ∧ o.world.exchanges = [Request.exchange true registerAPDU 8]) ∧
    (∃ o, FIDOExchange scriptReader (freshWorld brokenLinkScript) registerAPDU zeroBuf 8 2 = some o ∧
      o.res = 1 ∧
      o.world.exchanges =
        [Request.exchange true registerAPDU 8, Request.exchange true GET_RESPONSE 4]) :=
  ⟨(FIDOExchange_failure_propagation scriptReader (freshWorld []) registerAPDU zeroBuf 8).1 1
      (by decide) (by decide) (by decide),
   (FIDOExchange_failure_propagation scriptReader (freshWorld brokenLinkScript) registerAPDU
      zeroBuf 8).2 0 2
      (FIDOExchange_init scriptReader (freshWorld brokenLinkScript) registerAPDU zeroBuf 8)
      rfl (by decide) (by decide) (by decide) (by decide)⟩

/-- Counterexample to C6: the first continuation has code 5 and status word
`0x6103`, yet no further GET RESPONSE is issued: the accumulated length 13
exceeds the capacity 8 and `FIDOExchange` returns 100 after two exchanges,
leaving the third reply unrequested. -/
theorem FIDOExchange_chain_cut_by_overflow :
    (overfullScript.map (fun r => (r.res, r.sw / 256))).take 2 = [(5, 0x61), (5, 0x61)] ∧
    (FIDOExchange scriptReader (freshWorld overfullScript) registerAPDU zeroBuf 8 5).map
      (fun o => (o.res, o.sw / 256, o.world.exchanges.length, o.world.card.length)) =
      some (100, 0x61, 2, 1) := by
  decide

/-- Counterexample to C7: on the overflow return the reported length is 13 for
a capacity of 8. -/
theorem FIDOExchange_overflow_length_exceeds :
    (FIDOExchange scriptReader (freshWorld overfullScript) registerAPDU zeroBuf 8 5).map
      (fun o => (o.res, o.ResultLen, decide (o.ResultLen ≤ 8))) = some (100, 13, false) := by
  decide

/-- Witness of C7: the three-part response of capacity 8. -/
theorem FIDOExchange_length_invariant_witness :
    ∃ o, FIDOExchange scriptReader (freshWorld threeParts) registerAPDU zeroBuf 8 3 = some o ∧
      (o.ResultLen ≤ 8 ∨ (o.res = 100 ∧ 8 < o.ResultLen)) :=
  match h : FIDOExchange scriptReader (freshWorld threeParts) registerAPDU zeroBuf 8 3 with
  | some o => ⟨o, rfl, FIDOExchange_length_invariant scriptReader (freshWorld threeParts)
      registerAPDU zeroBuf 8 3 o h (by decide)⟩
  | none => absurd (congrArg Option.isSome h) (by decide)

/-- Witness of C6: a first part with status word `0x6100` triggers one GET
RESPONSE; its reply `0x6A80` with code 5 ends the chain with result 0. -/
theorem FIDOExchange_status_driven_witness :
    zeroHintInit.sw = 0x6100 ∧ zeroHintInit.res = 0 ∧ zeroHintNext.res = 0 ∧
    (FIDOExchange_iter scriptReader 8 zeroHintInit).out.world.exchanges =
      zeroHintInit.world.exchanges ++ [Request.exchange true GET_RESPONSE 6] ∧
    FIDOExchange scriptReader (freshWorld zeroHintScript) registerAPDU zeroBuf 8 2 =
      some zeroHintNext ∧
    zeroHintNext.res ≠ 5 :=
  ⟨by decide,
   (FIDOExchange_status_driven scriptReader (freshWorld zeroHintScript) registerAPDU zeroBuf
      8).1.2 (by decide),
   ((FIDOExchange_status_driven scriptReader (freshWorld zeroHintScript) registerAPDU zeroBuf
      8).2.1 zeroHintInit zeroHintNext rfl).2 (by decide),
   ((FIDOExchange_status_driven scriptReader (freshWorld zeroHintScript) registerAPDU zeroBuf
      8).2.2.1 0 zeroHintInit rfl (by decide)).1 (by decide),
   ((FIDOExchange_status_driven scriptReader (freshWorld zeroHintScript) registerAPDU zeroBuf
      8).2.2.1 1 zeroHintNext rfl (by decide)).2 (by decide) 2 (by decide),
   (FIDOExchange_status_driven scriptReader (freshWorld zeroHintScript) registerAPDU zeroBuf
      8).2.2.2 2 zeroHintNext rfl⟩

/-- C9 as amended (registration response rejection).  When application selection
succeeds with `0x9000` and the register exchange returns 0 with a response
whose first byte is not `0x05`, `CmdHFFidoRegister` returns 5 if the register
status word is `0x9000` and 3 if it is not. -/
theorem CmdHFFidoRegister_first_byte {σ : Type} (rd : Reader σ) (w : World σ) (fuel : Nat)
    (o2 : Out σ)
    (hsel : (FIDOSelect rd { w with card := rd.SetAPDULogging true w.card } true true zeroBuf
      2048).res = 0)
    (hsw : (FIDOSelect rd { w with card := rd.SetAPDULogging true w.card } true true zeroBuf
      2048).sw = 0x9000)
    (hreg : FIDORegister rd
      (FIDOSelect rd { w with card := rd.SetAPDULogging true w.card } true true zeroBuf 2048).world
      (List.replicate 64 0)
      (FIDOSelect rd { w with card := rd.SetAPDULogging true w.card } true true zeroBuf 2048).Result
      2048 fuel = some o2)
    (hres : o2.res = 0)
    (hbyte : o2.Result 0 ≠ 0x05) :
    (CmdHFFidoRegister rd w fuel).map Prod.fst = some (if o2.sw = 0x9000 then 5 else 3) := by
  unfold CmdHFFidoRegister
  simp only
  rw [if_neg (by rw [hsel]; simp), if_neg (by rw [hsw]; simp), hreg]
  simp only
  rw [if_neg (by rw [hres]; simp)]
  by_cases h : o2.sw = 0x9000
  · rw [if_neg (by rw [h]; simp), if_pos hbyte, if_pos h]; rfl
  · rw [if_pos h, if_neg h]; rfl

/-- Witness of C9: a register response `04 01 02` with status word `0x9000`. -/
theorem CmdHFFidoRegister_first_byte_witness :
    (CmdHFFidoRegister scriptReader (freshWorld badTagScript) 1).map Prod.fst = some 5 :=
  CmdHFFidoRegister_first_byte scriptReader (freshWorld badTagScript) 1
    (FIDOExchange_init scriptReader
      (FIDOSelect scriptReader (freshWorld badTagScript) true true zeroBuf 2048).world
      { CLA := 0x00, INS := 0x01, P1 := 0x03, P2 := 0x00, Lc := 64,
        data := some (List.replicate 64 0) }
      (FIDOSelect scriptReader (freshWorld badTagScript) true true zeroBuf 2048).Result 2048)
    (by decide) (by decide) rfl (by decide) (by decide)

/-- Counterexample to C9: selection succeeds, the register exchange completes
with result 0, status word `0x6A80` and first byte `0x01`, and
`CmdHFFidoRegister` returns 3, not 5. -/
theorem CmdHFFidoRegister_status_checked_first :
    (FIDOSelect scriptReader (freshWorld refusedScript) true true zeroBuf 2048).res = 0 ∧
    (FIDOSelect scriptReader (freshWorld refusedScript) true true zeroBuf 2048).sw = 0x9000 ∧
    (FIDORegister scriptReader
      (FIDOSelect scriptReader (freshWorld refusedScript) true true zeroBuf 2048).world
      (List.replicate 64 0)
      (FIDOSelect scriptReader (freshWorld refusedScript) true true zeroBuf 2048).Result
      2048 1).map (fun o => (o.res, o.Result 0, o.sw)) = some (0, 0x01, 0x6A80) ∧
    (CmdHFFidoRegister scriptReader (freshWorld refusedScript) 1).map Prod.fst = some 3 := by
  decide

/-- C10 (end-to-end info scenario), evaluated on the code: when SELECT returns
`0x9000` and stores exactly the six bytes `U2F_V2` into the zeroed buffer,
`CmdHFFidoInfo` returns 0 after exactly one exchange, but prints the
`WARNING: strange version:` lines and the dump, not the version line. -/
theorem CmdHFFidoInfo_u2f_v2_takes_warning_path (APDU_RES_LEN : Nat) :
    (CmdHFFidoInfo scriptReader APDU_RES_LEN (freshWorld [u2fReply]) none).1 = 0 ∧
    (CmdHFFidoInfo scriptReader APDU_RES_LEN (freshWorld [u2fReply]) none).2.exchanges =
      [Request.select true false FIDO_AID APDU_RES_LEN] ∧
    (CmdHFFidoInfo scriptReader APDU_RES_LEN (freshWorld [u2fReply]) none).2.printed =
      [ { fmt := "--------------------------------------------", args := [] },
        { fmt := "FIDO authenricator detected.", args := [] },
        { fmt := "WARNING: strange version:", args := [] },
        { fmt := "dump_buffer", args := [0x55, 0x32, 0x46, 0x5F, 0x56, 0x32] } ] :=
  ⟨rfl, rfl, rfl⟩

/-- When the reader leaves the two status bytes after the data, the seventh
byte compared by `strncmp` is `0x90` and the version line is printed. -/
theorem CmdHFFidoInfo_with_status_bytes (APDU_RES_LEN : Nat) :
    (CmdHFFidoInfo scriptReader APDU_RES_LEN
      (freshWorld [{ u2fReply with Result := U2F_V2 ++ [0x90, 0x00] }]) none).2.printed =
      [ { fmt := "--------------------------------------------", args := [] },
        { fmt := "FIDO authenricator detected. Version: %.*s",
          args := [0x55, 0x32, 0x46, 0x5F, 0x56, 0x32] } ] :=
  rfl

end Fido

namespace Libpcrypto

/-! ## Theorems about libpcrypto.c -/

theorem xor_lt_256 {a b : Nat} (ha : a < 256) (hb : b < 256) : a ^^^ b < 256 :=
  Nat.xor_lt_two_pow (n := 8) ha hb

theorem xtime_lt (a : Nat) : xtime a < 256 := by
  unfold xtime
  split
  · assumption
  · exact xor_lt_256 (by omega) (by decide)

theorem pick_lt (b i : Nat) {v : Nat} (hv : v < 256) : pick b i v < 256 := by
  unfold pick
  split
  · exact hv
  · decide

theorem gmul_lt (a b : Nat) : gmul a b < 256 := by
  unfold gmul
  have h0 : a % 256 < 256 := Nat.mod_lt _ (by decide)
  exact xor_lt_256 (xor_lt_256 (xor_lt_256 (xor_lt_256 (xor_lt_256 (xor_lt_256 (xor_lt_256
    (pick_lt _ _ h0) (pick_lt _ _ (xtime_lt _))) (pick_lt _ _ (xtime_lt _)))
    (pick_lt _ _ (xtime_lt _))) (pick_lt _ _ (xtime_lt _))) (pick_lt _ _ (xtime_lt _)))
    (pick_lt _ _ (xtime_lt _))) (pick_lt _ _ (xtime_lt _))

theorem pick_xor (a b i v : Nat) : pick (a ^^^ b) i v = pick a i v ^^^ pick b i v := by
  unfold pick
  rw [Nat.testBit_xor]
  cases a.testBit i <;> cases b.testBit i <;> simp

/-- Multiplication by a constant in GF(2^8) distributes over XOR. -/
theorem gmul_xor (c a b : Nat) : gmul c (a ^^^ b) = gmul c a ^^^ gmul c b := by
  unfold gmul
  simp only [pick_xor]
  ac_rfl

set_option maxRecDepth 100000 in
theorem RSb_FSb : ∀ b < 256, RSb.getD (FSb.getD b 0) 0 = b := by decide

set_option maxRecDepth 100000 in
theorem FSb_lt : ∀ b < 256, FSb.getD b 0 < 256 := by decide

set_option maxRecDepth 100000 in
theorem RSb_lt : ∀ b < 256, RSb.getD b 0 < 256 := by decide

set_option maxRecDepth 100000 in
theorem mix_F2 : ∀ a < 256,
    gmul 14 (gmul 3 a) ^^^ gmul 11 (gmul 2 a) ^^^ gmul 13 a ^^^ gmul 9 a = 0 := by decide

set_option maxRecDepth 100000 in
theorem mix_F3 : ∀ a < 256,
    gmul 14 a ^^^ gmul 11 (gmul 3 a) ^^^ gmul 13 (gmul 2 a) ^^^ gmul 9 a = 0 := by decide

set_option maxRecDepth 100000 in
theorem mix_F4 : ∀ a < 256,
    gmul 14 a ^^^ gmul 11 a ^^^ gmul 13 (gmul 3 a) ^^^ gmul 9 (gmul 2 a) = 0 := by decide

set_option maxRecDepth 100000 in
theorem mix_F1 : ∀ a < 256,
    gmul 14 (gmul 2 a) ^^^ gmul 11 a ^^^ gmul 13 a ^^^ gmul 9 (gmul 3 a) = a := by decide

theorem block_eq (s : List Nat) (h : s.length = 16) :
    ∃ a0 a1 a2 a3 a4 a5 a6 a7 a8 a9 a10 a11 a12 a13 a14 a15,
      s = [a0, a1, a2, a3, a4, a5, a6, a7, a8, a9, a10, a11, a12, a13, a14, a15] := by
  match s, h with
  | [a0, a1, a2, a3, a4, a5, a6, a7, a8, a9, a10, a11, a12, a13, a14, a15], _ =>
    exact ⟨a0, a1, a2, a3, a4, a5, a6, a7, a8, a9, a10, a11, a12, a13, a14, a15, rfl⟩

theorem InvShiftRows_ShiftRows (s : List Nat) (h : s.length = 16) :
    InvShiftRows (ShiftRows s) = s := by
  obtain ⟨a0, a1, a2, a3, a4, a5, a6, a7, a8, a9, a10, a11, a12, a13, a14, a15, rfl⟩ :=
    block_eq s h
  rfl

theorem ShiftRows_block (s : List Nat) (h : IsBlock s) : IsBlock (ShiftRows s) := by
  obtain ⟨a0, a1, a2, a3, a4, a5, a6, a7, a8, a9, a10, a11, a12, a13, a14, a15, rfl⟩ :=
    block_eq s h.1
  refine ⟨rfl, ?_⟩
  have hb := h.2
  simp only [List.forall_mem_cons, List.not_mem_nil, false_implies, implies_true, and_true]
    at hb
  simp only [ShiftRows, List.map_cons, List.map_nil, List.getD_cons_zero, List.getD_cons_succ,
    List.forall_mem_cons, List.not_mem_nil, false_implies, implies_true, and_true]
  omega

theorem SubBytes_block (s : List Nat) (h : IsBlock s) : IsBlock (SubBytes s) := by
  refine ⟨by simpa [SubBytes] using h.1, ?_⟩
  intro b hb
  simp only [SubBytes, List.mem_map] at hb
  obtain ⟨a, ha, rfl⟩ := hb
  exact FSb_lt a (h.2 a ha)

theorem InvSubBytes_SubBytes (s : List Nat) (h : ∀ b ∈ s, b < 256) :
    InvSubBytes (SubBytes s) = s := by
  simp only [InvSubBytes, SubBytes, List.map_map]
  conv_rhs => rw [← List.map_id s]
  apply List.map_congr_left
  intro a ha
  exact RSb_FSb a (h a ha)

theorem xorBlock_length (a b : List Nat) : (xorBlock a b).length = min a.length b.length := by
  simp [xorBlock]

theorem xorBlock_lt (a b : List Nat) (ha : ∀ x ∈ a, x < 256) (hb : ∀ x ∈ b, x < 256) :
    ∀ x ∈ xorBlock a b, x < 256 := by
  induction a generalizing b with
  | nil => simp [xorBlock]
  | cons x xs ih =>
    cases b with
    | nil => simp [xorBlock]
    | cons y ys =>
      intro z hz
      simp only [xorBlock, List.zipWith_cons_cons, List.mem_cons] at hz
      rcases hz with rfl | hz
      · exact xor_lt_256 (ha x (List.mem_cons_self _ _)) (hb y (List.mem_cons_self _ _))
      · exact ih ys (fun w hw => ha w (List.mem_cons_of_mem _ hw))
          (fun w hw => hb w (List.mem_cons_of_mem _ hw)) z hz

theorem xorBlock_block (a b : List Nat) (ha : IsBlock a) (hb : IsBlock b) :
    IsBlock (xorBlock a b) :=
  ⟨by rw [xorBlock_length, ha.1, hb.1]; rfl, xorBlock_lt a b ha.2 hb.2⟩

theorem xorBlock_cancel (a k : List Nat) (h : a.length ≤ k.length) :
    xorBlock (xorBlock a k) k = a := by
  induction a generalizing k with
  | nil => simp [xorBlock]
  | cons x xs ih =>
    cases k with
    | nil => simp at h
    | cons y ys =>
      simp only [xorBlock, List.zipWith_cons_cons, List.cons.injEq]
      exact ⟨Nat.xor_cancel_right y x, ih ys (by simpa using h)⟩

/-- The matrix of `InvMixColumns` inverts the matrix of `MixColumns` on a column. -/
theorem invMixColumn_mixColumn (a0 a1 a2 a3 : Nat) (h0 : a0 < 256) (h1 : a1 < 256)
    (h2 : a2 < 256) (h3 : a3 < 256) :
    invMixColumn
      (gmul 2 a0 ^^^ gmul 3 a1 ^^^ a2 ^^^ a3)
      (a0 ^^^ gmul 2 a1 ^^^ gmul 3 a2 ^^^ a3)
      (a0 ^^^ a1 ^^^ gmul 2 a2 ^^^ gmul 3 a3)
      (gmul 3 a0 ^^^ a1 ^^^ a2 ^^^ gmul 2 a3) = [a0, a1, a2, a3] := by
  have e0 := mix_F1 a0 h0
  have e1 := mix_F1 a1 h1
  have e2 := mix_F1 a2 h2
  have e3 := mix_F1 a3 h3
  have f0 := mix_F2 a0 h0
  have f1 := mix_F2 a1 h1
  have f2 := mix_F2 a2 h2
  have f3 := mix_F2 a3 h3
  have g0 := mix_F3 a0 h0
  have g1 := mix_F3 a1 h1
  have g2 := mix_F3 a2 h2
  have g3 := mix_F3 a3 h3
  have k0 := mix_F4 a0 h0
  have k1 := mix_F4 a1 h1
  have k2 := mix_F4 a2 h2
  have k3 := mix_F4 a3 h3
  unfold invMixColumn
  simp only [gmul_xor]
  congr 1
  · calc _ = (gmul 14 (gmul 2 a0) ^^^ gmul 11 a0 ^^^ gmul 13 a0 ^^^ gmul 9 (gmul 3 a0)) ^^^
          (gmul 14 (gmul 3 a1) ^^^ gmul 11 (gmul 2 a1) ^^^ gmul 13 a1 ^^^ gmul 9 a1) ^^^
          (gmul 14 a2 ^^^ gmul 11 (gmul 3 a2) ^^^ gmul 13 (gmul 2 a2) ^^^ gmul 9 a2) ^^^
          (gmul 14 a3 ^^^ gmul 11 a3 ^^^ gmul 13 (gmul 3 a3) ^^^ gmul 9 (gmul 2 a3)) := by
          ac_rfl
      _ = a0 := by rw [e0, f1, g2, k3]; simp
  congr 1
  · calc _ = (gmul 14 a0 ^^^ gmul 11 a0 ^^^ gmul 13 (gmul 3 a0) ^^^ gmul 9 (gmul 2 a0)) ^^^
          (gmul 14 (gmul 2 a1) ^^^ gmul 11 a1 ^^^ gmul 13 a1 ^^^ gmul 9 (gmul 3 a1)) ^^^
          (gmul 14 (gmul 3 a2) ^^^ gmul 11 (gmul 2 a2) ^^^ gmul 13 a2 ^^^ gmul 9 a2) ^^^
          (gmul 14 a3 ^^^ gmul 11 (gmul 3 a3) ^^^ gmul 13 (gmul 2 a3) ^^^ gmul 9 a3) := by
          ac_rfl
      _ = a1 := by rw [k0, e1, f2, g3]; simp
  congr 1
  · calc _ = (gmul 14 a0 ^^^ gmul 11 (gmul 3 a0) ^^^ gmul 13 (gmul 2 a0) ^^^ gmul 9 a0) ^^^
          (gmul 14 a1 ^^^ gmul 11 a1 ^^^ gmul 13 (gmul 3 a1) ^^^ gmul 9 (gmul 2 a1)) ^^^
          (gmul 14 (gmul 2 a2) ^^^ gmul 11 a2 ^^^ gmul 13 a2 ^^^ gmul 9 (gmul 3 a2)) ^^^
          (gmul 14 (gmul 3 a3) ^^^ gmul 11 (gmul 2 a3) ^^^ gmul 13 a3 ^^^ gmul 9 a3) := by
          ac_rfl
      _ = a2 := by rw [g0, k1, e2, f3]; simp
  congr 1
  · calc _ = (gmul 14 (gmul 3 a0) ^^^ gmul 11 (gmul 2 a0) ^^^ gmul 13 a0 ^^^ gmul 9 a0) ^^^
          (gmul 14 a1 ^^^ gmul 11 (gmul 3 a1) ^^^ gmul 13 (gmul 2 a1) ^^^ gmul 9 a1) ^^^
          (gmul 14 a2 ^^^ gmul 11 a2 ^^^ gmul 13 (gmul 3 a2) ^^^ gmul 9 (gmul 2 a2)) ^^^
          (gmul 14 (gmul 2 a3) ^^^ gmul 11 a3 ^^^ gmul 13 a3 ^^^ gmul 9 (gmul 3 a3)) := by
          ac_rfl
      _ = a3 := by rw [f0, g1, k2, e3]; simp

theorem mixColumn_lt (a0 a1 a2 a3 : Nat) (h0 : a0 < 256) (h1 : a1 < 256)
    (h2 : a2 < 256) (h3 : a3 < 256) : ∀ b ∈ mixColumn a0 a1 a2 a3, b < 256 := by
  intro b hb
  simp only [mixColumn, List.mem_cons, List.not_mem_nil, or_false] at hb
  rcases hb with rfl | rfl | rfl | rfl <;>
    exact xor_lt_256 (xor_lt_256 (xor_lt_256 (by first | assumption | exact gmul_lt _ _)
      (by first | assumption | exact gmul_lt _ _)) (by first | assumption | exact gmul_lt _ _))
      (by first | assumption | exact gmul_lt _ _)

theorem MixColumns_eq (a0 a1 a2 a3 a4 a5 a6 a7 a8 a9 a10 a11 a12 a13 a14 a15 : Nat) :
    MixColumns [a0, a1, a2, a3, a4, a5, a6, a7, a8, a9, a10, a11, a12, a13, a14, a15] =
      mixColumn a0 a1 a2 a3 ++ mixColumn a4 a5 a6 a7 ++ mixColumn a8 a9 a10 a11 ++
        mixColumn a12 a13 a14 a15 := by
  simp [MixColumns, mixColumn]

theorem MixColumns_block (s : List Nat) (h : IsBlock s) : IsBlock (MixColumns s) := by
  obtain ⟨a0, a1, a2, a3, a4, a5, a6, a7, a8, a9, a10, a11, a12, a13, a14, a15, rfl⟩ :=
    block_eq s h.1
  have hb := h.2
  simp only [List.forall_mem_cons, List.not_mem_nil, false_implies, implies_true, and_true]
    at hb
  obtain ⟨h0, h1, h2, h3, h4, h5, h6, h7, h8, h9, h10, h11, h12, h13, h14, h15⟩ := hb
  rw [MixColumns_eq]
  refine ⟨rfl, ?_⟩
  intro b hb
  simp only [List.mem_append] at hb
  rcases hb with ((hb | hb) | hb) | hb
  · exact mixColumn_lt _ _ _ _ h0 h1 h2 h3 b hb
  · exact mixColumn_lt _ _ _ _ h4 h5 h6 h7 b hb
  · exact mixColumn_lt _ _ _ _ h8 h9 h10 h11 b hb
  · exact mixColumn_lt _ _ _ _ h12 h13 h14 h15 b hb

theorem InvMixColumns_MixColumns (s : List Nat) (h : IsBlock s) :
    InvMixColumns (MixColumns s) = s := by
  obtain ⟨a0, a1, a2, a3, a4, a5, a6, a7, a8, a9, a10, a11, a12, a13, a14, a15, rfl⟩ :=
    block_eq s h.1
  have hb := h.2
  simp only [List.forall_mem_cons, List.not_mem_nil, false_implies, implies_true, and_true]
    at hb
  obtain ⟨h0, h1, h2, h3, h4, h5, h6, h7, h8, h9, h10, h11, h12, h13, h14, h15⟩ := hb
  have c0 := invMixColumn_mixColumn a0 a1 a2 a3 h0 h1 h2 h3
  have c1 := invMixColumn_mixColumn a4 a5 a6 a7 h4 h5 h6 h7
  have c2 := invMixColumn_mixColumn a8 a9 a10 a11 h8 h9 h10 h11
  have c3 := invMixColumn_mixColumn a12 a13 a14 a15 h12 h13 h14 h15
  rw [MixColumns_eq]
  simp only [mixColumn, InvMixColumns, List.cons_append, List.nil_append, List.flatMap_cons,
    List.flatMap_nil, List.append_nil, Nat.mul_zero, Nat.mul_one, Nat.zero_add,
    List.getD_cons_zero, List.getD_cons_succ, Nat.reduceMul, Nat.reduceAdd]
  rw [c0, c1, c2, c3]
  rfl

set_option maxRecDepth 100000 in
theorem FSb_length : FSb.length = 256 := by decide

theorem FSb_getD_lt (x : Nat) : FSb.getD x 0 < 256 := by
  by_cases h : x < 256
  · exact FSb_lt x h
  · rw [List.getD_eq_default _ _ (by rw [FSb_length]; omega)]
    decide

theorem AddRoundKey_block (a k : List Nat) (ha : IsBlock a) (hk : IsBlock k) :
    IsBlock (AddRoundKey a k) :=
  xorBlock_block a k ha hk

theorem AddRoundKey_cancel (a k : List Nat) (ha : IsBlock a) (hk : IsBlock k) :
    AddRoundKey (AddRoundKey a k) k = a :=
  xorBlock_cancel a k (by rw [ha.1, hk.1])

theorem nextRoundKey_block (k : List Nat) (rcon : Nat) (hk : IsBlock k) (hr : rcon < 256) :
    IsBlock (nextRoundKey k rcon) := by
  obtain ⟨a0, a1, a2, a3, a4, a5, a6, a7, a8, a9, a10, a11, a12, a13, a14, a15, rfl⟩ :=
    block_eq k hk.1
  have hb := hk.2
  simp only [List.forall_mem_cons, List.not_mem_nil, false_implies, implies_true, and_true]
    at hb
  obtain ⟨h0, h1, h2, h3, h4, h5, h6, h7, h8, h9, h10, h11, h12, h13, h14, h15⟩ := hb
  have s13 := FSb_getD_lt a13
  have s14 := FSb_getD_lt a14
  have s15 := FSb_getD_lt a15
  have s12 := FSb_getD_lt a12
  refine ⟨rfl, ?_⟩
  simp only [nextRoundKey, xorBlock, List.take, List.drop, List.zipWith_cons_cons,
    List.zipWith_nil_left, List.getD_cons_zero, List.getD_cons_succ, List.cons_append,
    List.nil_append, List.forall_mem_cons, List.not_mem_nil, false_implies, implies_true,
    and_true]
  refine ⟨?_, ?_, ?_, ?_, ?_, ?_, ?_, ?_, ?_, ?_, ?_, ?_, ?_, ?_, ?_, ?_⟩ <;>
    repeat (first | assumption | apply xor_lt_256)

theorem scanl_forall {α β : Type} (P : α → Prop) (Q : β → Prop) (f : α → β → α)
    (hf : ∀ a b, P a → Q b → P (f a b)) :
    ∀ (l : List β) (a : α), P a → (∀ b ∈ l, Q b) → ∀ x ∈ List.scanl f a l, P x := by
  intro l
  induction l with
  | nil => intro a ha _ x hx; simp at hx; exact hx ▸ ha
  | cons b l ih =>
    intro a ha hl x hx
    simp only [List.scanl, List.mem_cons] at hx
    rcases hx with rfl | hx
    · exact ha
    · exact ih (f a b) (hf a b ha (hl b (List.mem_cons_self _ _)))
        (fun c hc => hl c (List.mem_cons_of_mem _ hc)) x hx

/-- Every round key of a 16-byte key is a 16-byte block. -/
theorem KeyExpansion_block (key : List Nat) (hlen : key.length = 16)
    (hb : ∀ b ∈ key, b < 256) : ∀ k ∈ KeyExpansion key, IsBlock k := by
  unfold KeyExpansion
  apply scanl_forall IsBlock (fun r => r < 256) nextRoundKey nextRoundKey_block
  · rw [List.take_of_length_le (by omega)]
    exact ⟨hlen, hb⟩
  · decide

theorem KeyExpansion_length (key : List Nat) : (KeyExpansion key).length = 11 := by
  simp [KeyExpansion, List.length_scanl, RCON]

theorem round_block (k y : List Nat) (hk : IsBlock k) (hy : IsBlock y) :
    IsBlock (AddRoundKey (MixColumns (ShiftRows (SubBytes y))) k) :=
  AddRoundKey_block _ _ (MixColumns_block _ (ShiftRows_block _ (SubBytes_block _ hy))) hk

/-- One decryption round undoes one encryption round. -/
theorem round_cancel (k y : List Nat) (hk : IsBlock k) (hy : IsBlock y) :
    InvMixColumns (AddRoundKey (InvSubBytes (InvShiftRows
      (ShiftRows (SubBytes (AddRoundKey (MixColumns (ShiftRows (SubBytes y))) k))))) k) =
      ShiftRows (SubBytes y) := by
  have hm := MixColumns_block _ (ShiftRows_block _ (SubBytes_block _ hy))
  have he := round_block k y hk hy
  rw [InvShiftRows_ShiftRows _ (SubBytes_block _ he).1, InvSubBytes_SubBytes _ he.2,
    AddRoundKey_cancel _ _ hm hk]
  exact InvMixColumns_MixColumns _ (ShiftRows_block _ (SubBytes_block _ hy))

theorem rounds_block (ks : List (List Nat)) (hks : ∀ k ∈ ks, IsBlock k) :
    ∀ y, IsBlock y →
      IsBlock (ks.foldl (fun st k => AddRoundKey (MixColumns (ShiftRows (SubBytes st))) k) y) := by
  induction ks with
  | nil => intro y hy; exact hy
  | cons k ks ih =>
    intro y hy
    simp only [List.foldl_cons]
    exact ih (fun x hx => hks x (List.mem_cons_of_mem _ hx)) _
      (round_block k y (hks k (List.mem_cons_self _ _)) hy)

theorem rounds_cancel (ks : List (List Nat)) (hks : ∀ k ∈ ks, IsBlock k) :
    ∀ y, IsBlock y →
      ks.reverse.foldl (fun st k => InvMixColumns (AddRoundKey (InvSubBytes (InvShiftRows st)) k))
        (ShiftRows (SubBytes
          (ks.foldl (fun st k => AddRoundKey (MixColumns (ShiftRows (SubBytes st))) k) y))) =
      ShiftRows (SubBytes y) := by
  induction ks with
  | nil => intro y _; rfl
  | cons k ks ih =>
    intro y hy
    have hk := hks k (List.mem_cons_self _ _)
    simp only [List.foldl_cons, List.reverse_cons, List.foldl_append, List.foldl_nil]
    rw [ih (fun x hx => hks x (List.mem_cons_of_mem _ hx)) _ (round_block k y hk hy)]
    exact round_cancel k y hk hy

theorem getD_block (ctx : mbedtls_aes_context) (h : ValidContext ctx) (i : Nat)
    (hi : i < ctx.rk.length) : IsBlock (ctx.rk.getD i []) := by
  rw [List.getD_eq_getElem _ _ hi]
  exact h.1 _ (List.getElem_mem _)

theorem Cipher_block (ctx : mbedtls_aes_context) (h : ValidContext ctx) (s : List Nat)
    (hs : IsBlock s) : IsBlock (Cipher ctx s) := by
  have h0 := getD_block ctx h 0 (by have := h.2; omega)
  have hn := getD_block ctx h ctx.nr h.2
  have hmid : ∀ k ∈ (ctx.rk.drop 1).take (ctx.nr - 1), IsBlock k :=
    fun k hk => h.1 k (List.mem_of_mem_drop (List.mem_of_mem_take hk))
  unfold Cipher
  exact AddRoundKey_block _ _ (ShiftRows_block _ (SubBytes_block _
    (rounds_block _ hmid _ (AddRoundKey_block _ _ hs h0)))) hn

/-- The block cipher round trip: `InvCipher` inverts `Cipher` on 16-byte blocks. -/
theorem InvCipher_Cipher (ctx : mbedtls_aes_context) (h : ValidContext ctx) (s : List Nat)
    (hs : IsBlock s) : InvCipher ctx (Cipher ctx s) = s := by
  have h0 := getD_block ctx h 0 (by have := h.2; omega)
  have hn := getD_block ctx h ctx.nr h.2
  have hmid : ∀ k ∈ (ctx.rk.drop 1).take (ctx.nr - 1), IsBlock k :=
    fun k hk => h.1 k (List.mem_of_mem_drop (List.mem_of_mem_take hk))
  have hs0 := AddRoundKey_block _ _ hs h0
  have hr := rounds_block _ hmid _ hs0
  have hf := ShiftRows_block _ (SubBytes_block _ hr)
  unfold InvCipher Cipher
  simp only
  rw [AddRoundKey_cancel _ _ hf hn, rounds_cancel _ hmid _ hs0,
    InvShiftRows_ShiftRows _ (SubBytes_block _ hs0).1, InvSubBytes_SubBytes _ hs0.2]
  exact AddRoundKey_cancel _ _ hs h0

theorem setkey_valid (key : List Nat) (hlen : key.length = 16) (hb : ∀ b ∈ key, b < 256) :
    ValidContext { nr := 10, rk := KeyExpansion key } :=
  ⟨KeyExpansion_block key hlen hb, by simp [KeyExpansion_length]⟩

/-- The CBC round trip over `n` blocks. -/
theorem cbc_roundtrip (ctx : mbedtls_aes_context) (h : ValidContext ctx) :
    ∀ (n : Nat) (iv input : List Nat), IsBlock iv → input.length = 16 * n →
      (∀ b ∈ input, b < 256) →
      (cbcEncrypt ctx n iv input).2.length = 16 * n ∧
      (cbcDecrypt ctx n iv (cbcEncrypt ctx n iv input).2).2 = input := by
  intro n
  induction n with
  | zero =>
    intro iv input _ hlen _
    simp only [cbcEncrypt, cbcDecrypt, List.length_nil, Nat.mul_zero, true_and]
    exact (List.length_eq_zero.mp (by simpa using hlen)).symm
  | succ n ih =>
    intro iv input hiv hlen hb
    have htake : IsBlock (input.take 16) :=
      ⟨by rw [List.length_take, hlen]; omega, fun b hb1 => hb b (List.mem_of_mem_take hb1)⟩
    have hx : IsBlock (xorBlock (input.take 16) iv) := xorBlock_block _ _ htake hiv
    have hc : IsBlock (Cipher ctx (xorBlock (input.take 16) iv)) := Cipher_block ctx h _ hx
    obtain ⟨ih1, ih2⟩ := ih (Cipher ctx (xorBlock (input.take 16) iv)) (input.drop 16) hc
      (by rw [List.length_drop, hlen]; omega) (fun b hb1 => hb b (List.mem_of_mem_drop hb1))
    simp only [cbcEncrypt, cbcDecrypt]
    constructor
    · rw [List.length_append, ih1, hc.1]; omega
    · rw [List.take_left' hc.1, List.drop_left' hc.1, ih2, InvCipher_Cipher ctx h _ hx,
        xorBlock_cancel _ _ (by rw [htake.1, hiv.1])]
      exact List.take_append_drop 16 input

theorem local_iiv_block (iv : Option (List Nat)) (hiv : ∀ v, iv = some v → IsBlock v) :
    IsBlock (local_iiv iv) := by
  cases iv with
  | none => exact ⟨by simp [local_iiv], by simp [local_iiv]⟩
  | some v =>
    have hv := hiv v rfl
    have : local_iiv (some v) = v := by
      simp only [local_iiv, memcpy]
      rw [List.take_of_length_le (by rw [hv.1]), List.drop_of_length_le (by simp)]
      simp
    rw [this]
    exact hv

/-- C8 (cipher round trip).  For every 16-byte key, every iv (a 16-byte block,
or null) and every plaintext `p` of `length` bytes with `length` a multiple of
16, `aes_encode` returns 0 with an output of `length` bytes, `aes_decode` of
that output under the same key and iv returns 0 with output `p`, and neither
call changes the caller's iv. -/
theorem aes_encode_decode_roundtrip (iv : Option (List Nat)) (key p out1 out2 : List Nat)
    (length : Nat)
    (hkey : key.length = 16) (hkb : ∀ b ∈ key, b < 256)
    (hiv : ∀ v, iv = some v → IsBlock v)
    (hmul : length % 16 = 0)
    (hp : p.length = length) (hpb : ∀ b ∈ p, b < 256)
    (ho1 : out1.length = length) (ho2 : out2.length = length) :
    (aes_encode iv key p out1 length).ret = 0 ∧
    (aes_encode iv key p out1 length).output.length = length ∧
    (aes_encode iv key p out1 length).iv = iv ∧
    (aes_decode iv key (aes_encode iv key p out1 length).output out2 length).ret = 0 ∧
    (aes_decode iv key (aes_encode iv key p out1 length).output out2 length).output = p ∧
    (aes_decode iv key (aes_encode iv key p out1 length).output out2 length).iv = iv := by
  have hctx := setkey_valid key hkey hkb
  have hiiv := local_iiv_block iv hiv
  have hn : p.length = 16 * (length / 16) := by omega
  obtain ⟨h1, h2⟩ := cbc_roundtrip _ hctx (length / 16) (local_iiv iv) p hiiv hn hpb
  have henc : aes_encode iv key p out1 length =
      { ret := 0, iv := iv,
        output := (cbcEncrypt { nr := 10, rk := KeyExpansion key } (length / 16)
          (local_iiv iv) p).2 } := by
    simp [aes_encode, mbedtls_aes_setkey_enc, mbedtls_aes_crypt_cbc, hmul,
      List.drop_of_length_le (Nat.le_of_eq ho1)]
  have hdec : aes_decode iv key (cbcEncrypt { nr := 10, rk := KeyExpansion key } (length / 16)
      (local_iiv iv) p).2 out2 length = { ret := 0, iv := iv, output := p } := by
    simp [aes_decode, mbedtls_aes_setkey_dec, mbedtls_aes_crypt_cbc, hmul,
      List.drop_of_length_le (Nat.le_of_eq ho2), h2]
  rw [henc]
  simp only
  rw [hdec]
  refine ⟨?_, ?_, ?_, ?_, ?_, ?_⟩
  all_goals first | rfl | trivial | (rw [h1]; omega)

/-- C4 (CMAC-64 truncation).  Whenever `aes_cmac` returns 0 with the 16-byte tag
`c0 .. c15`, `aes_cmac8` returns 0 and the first eight bytes of `mac` are
`c1, c3, c5, c7, c9, c11, c13, c15`; the rest of `mac` is untouched. -/
theorem aes_cmac8_odd_bytes (prf : CmacPrf) (iv : Option (List Nat))
    (key input mac tag : List Nat) (length : Nat)
    (c0 c1 c2 c3 c4 c5 c6 c7 c8 c9 c10 c11 c12 c13 c14 c15 : Nat)
    (htag : tag.length = 16)
    (hc : aes_cmac prf iv key input tag length =
      (0, [c0, c1, c2, c3, c4, c5, c6, c7, c8, c9, c10, c11, c12, c13, c14, c15])) :
    aes_cmac8 prf iv key input mac length =
      (0, [c1, c3, c5, c7, c9, c11, c13, c15] ++ mac.drop 8) := by
  have hc1 : aes_cmac prf iv key input (List.replicate 16 0) length =
      (0, [c0, c1, c2, c3, c4, c5, c6, c7, c8, c9, c10, c11, c12, c13, c14, c15]) := by
    rw [← hc]
    simp only [aes_cmac, memset]
    rw [List.drop_of_length_le (Nat.le_of_eq htag), List.drop_of_length_le (by simp)]
  unfold aes_cmac8
  simp only [hc1, ne_eq, not_true_eq_false, if_false]
  simp [memset, List.range, List.range.loop, List.replicate]

/-- Witness of C4: the tag `0 .. 15` gives `1, 3, .., 15`. -/
theorem aes_cmac8_odd_bytes_witness :
    aes_cmac8 keyEchoPrf none (List.range 16) [1, 2, 3] (List.replicate 8 0xFF) 3 =
      (0, [1, 3, 5, 7, 9, 11, 13, 15] ++ (List.replicate 8 0xFF).drop 8) :=
  aes_cmac8_odd_bytes keyEchoPrf none (List.range 16) [1, 2, 3] (List.replicate 8 0xFF)
    (List.replicate 16 0) 3 0 1 2 3 4 5 6 7 8 9 10 11 12 13 14 15 (by decide) (by decide)

/-- Witness of C8: the first two blocks of the CBC-AES128 example of NIST SP
800-38A. -/
theorem aes_encode_decode_roundtrip_witness :
    (aes_encode (some nistIv) nistKey nistPlain (List.replicate 32 0) 32).ret = 0 ∧
    (aes_encode (some nistIv) nistKey nistPlain (List.replicate 32 0) 32).output.length = 32 ∧
    (aes_encode (some nistIv) nistKey nistPlain (List.replicate 32 0) 32).iv = some nistIv ∧
    (aes_decode (some nistIv) nistKey
      (aes_encode (some nistIv) nistKey nistPlain (List.replicate 32 0) 32).output
      (List.replicate 32 0) 32).ret = 0 ∧
    (aes_decode (some nistIv) nistKey
      (aes_encode (some nistIv) nistKey nistPlain (List.replicate 32 0) 32).output
      (List.replicate 32 0) 32).output = nistPlain ∧
    (aes_decode (some nistIv) nistKey
      (aes_encode (some nistIv) nistKey nistPlain (List.replicate 32 0) 32).output
      (List.replicate 32 0) 32).iv = some nistIv :=
  aes_encode_decode_roundtrip (some nistIv) nistKey nistPlain (List.replicate 32 0)
    (List.replicate 32 0) 32 (by decide) (by decide)
    (by intro v hv; cases hv; exact ⟨by decide, by decide⟩)
    (by decide) (by decide) (by decide) (by decide) (by decide)

set_option maxRecDepth 100000 in
/-- The model reproduces the CBC-AES128 example F.2.1 of NIST SP 800-38A. -/
theorem aes_encode_nist_vector :
    aes_encode (some nistIv) nistKey nistPlain (List.replicate 32 0) 32 =
      { ret := 0, iv := some nistIv, output := nistCipher } := by
  decide

end Libpcrypto
